import Mathlib

/-!
Verification of the embird news-aggregation engine.

This file gives a shallow embedding, in Lean, of the core algorithms of the
repository (the FAISS-backed vector index, the transitive clustering engine,
the recursive subclustering, the crawler's upsert and retention logic, the
search endpoints and the UMAP point emission), together with theorems that
settle the specified properties of those algorithms.

Modelling conventions:
* vectors are lists of rationals; the squared L2 distance is exact;
* timestamps are integers (seconds); database rows are explicit lists;
* numpy's real-valued `vector / np.linalg.norm(vector)` has no exact
  rational counterpart, so normalization is a function parameter
  (`normalize`); every theorem quantifies over it;
* `faiss.IndexFlatL2.search` is modelled as a stable sort of all
  (position, squared-distance) pairs by increasing distance (positions in
  insertion order break ties), truncated to `k`;
* Python set iteration order is modelled as ascending order.
-/

namespace Embird

/-- A dense embedding vector, as stored in the index (list of rationals). -/
abbrev Vec := List ℚ

/-- Squared L2 distance `np.sum((u - v) ** 2)` between two vectors. -/
def d2 (u v : Vec) : ℚ :=
  ((u.zip v).map (fun p => (p.1 - p.2) ^ 2)).sum

theorem d2_nonneg (u v : Vec) : 0 ≤ d2 u v := by
  apply List.sum_nonneg
  intro x hx
  obtain ⟨p, _, rfl⟩ := List.mem_map.mp hx
  exact sq_nonneg _

/-- A row of the `news` table (model of `shared/models/news.py:NewsItem`).
`embedding` is nullable; timestamps are integer seconds. -/
structure NewsRow where
  id : ℕ
  title : String
  summary : Option String
  url : String
  source_url : String
  first_seen_at : ℤ
  last_seen_at : ℤ
  hit_count : ℕ
  embedding : Option Vec
deriving DecidableEq, Repr

/-- In-memory state of `FaissService`: parallel `news_ids` / `vectors`
lists plus the `last_update` timestamp. -/
structure FaissService where
  news_ids : List ℕ
  vectors : List Vec
  last_update : Option ℤ
deriving DecidableEq, Repr

/-- `FaissService.update_index`: select rows in the window that have an
embedding; if none, return with the state untouched; otherwise rebuild the
parallel arrays, skipping vectors of the wrong shape.  (If every vector is
skipped the already-reset arrays stay empty and `last_update` keeps its old
value, exactly as in the source.) -/
def update_index (normalize : Vec → Vec) (dimension : ℕ) (s : FaissService)
    (rows : List NewsRow) (time_filter : ℤ) (now : ℤ) : FaissService :=
  let news_items := rows.filter
    (fun r => time_filter ≤ r.last_seen_at ∧ r.embedding.isSome)
  if news_items.isEmpty then s
  else
    let processed := news_items.filterMap (fun r =>
      match r.embedding with
      | some e => if e.length = dimension then some (r.id, normalize e) else none
      | none => none)
    if processed.isEmpty then
      { news_ids := [], vectors := [], last_update := s.last_update }
    else
      { news_ids := processed.map Prod.fst
        vectors := processed.map Prod.snd
        last_update := some now }

/-- All (position, squared distance to `q`) pairs of the index, in insertion
order — the distances `IndexFlatL2` computes for a query. -/
def scoredIndices (vectors : List Vec) (q : Vec) : List (ℕ × ℚ) :=
  (List.range vectors.length).map (fun j => (j, d2 q (vectors.getD j [])))

/-- Result order of a flat L2 search: increasing distance, positions break
ties in insertion order. -/
def knnRel (a b : ℕ × ℚ) : Prop :=
  a.2 < b.2 ∨ (a.2 = b.2 ∧ a.1 ≤ b.1)

instance : DecidableRel knnRel := fun a b =>
  inferInstanceAs (Decidable (a.2 < b.2 ∨ (a.2 = b.2 ∧ a.1 ≤ b.1)))

instance : IsTotal (ℕ × ℚ) knnRel where
  total a b := by
    rcases lt_trichotomy a.2 b.2 with h | h | h
    · exact Or.inl (Or.inl h)
    · rcases Nat.le_total a.1 b.1 with h' | h'
      · exact Or.inl (Or.inr ⟨h, h'⟩)
      · exact Or.inr (Or.inr ⟨h.symm, h'⟩)
    · exact Or.inr (Or.inl h)

instance : IsTrans (ℕ × ℚ) knnRel where
  trans a b c hab hbc := by
    rcases hab with hab | ⟨hab, hab'⟩
    · rcases hbc with hbc | ⟨hbc, _⟩
      · exact Or.inl (hab.trans hbc)
      · exact Or.inl (hbc ▸ hab)
    · rcases hbc with hbc | ⟨hbc, hbc'⟩
      · exact Or.inl (hab ▸ hbc)
      · exact Or.inr ⟨hab.trans hbc, hab'.trans hbc'⟩

/-- `self.index.search(q, k)`: the `k` entries of smallest distance to `q`,
as (position, squared distance) pairs. -/
def knn (vectors : List Vec) (q : Vec) (k : ℕ) : List (ℕ × ℚ) :=
  (List.insertionSort knnRel (scoredIndices vectors q)).take k

/-- `FaissService.search_similar`: normalize the query, take the `k`
nearest, convert each L2² distance `D` to `similarity = 1 - D/2` and keep
results with `similarity ≥ min_similarity`, resolving positions through
`news_ids`. -/
def search_similar (normalize : Vec → Vec) (s : FaissService)
    (vector : Vec) (k : ℕ) (min_similarity : ℚ) : List (ℕ × ℚ) :=
  if s.vectors.length = 0 then []
  else
    (knn s.vectors (normalize vector) k).filterMap (fun p =>
      if min_similarity ≤ 1 - p.2 / 2 then
        some (s.news_ids.getD p.1 0, 1 - p.2 / 2)
      else none)

/-! ### Transitive clustering (`FaissService.get_clusters`) -/

/-- Neighbor positions of position `i` under the squared-distance bound:
the positions a full search (`k = ntotal`) returns with
`D ≤ max_l2_squared`. -/
def neighbors (vectors : List Vec) (max_l2_squared : ℚ) (i : ℕ) : Finset ℕ :=
  (Finset.range vectors.length).filter
    (fun j => d2 (vectors.getD i []) (vectors.getD j []) ≤ max_l2_squared)

/-- One pass of the `while cluster_growing` loop: the members together with
every member's neighbors. -/
def expand (nbrs : ℕ → Finset ℕ) (s : Finset ℕ) : Finset ℕ :=
  s ∪ s.biUnion nbrs

/-- The `while cluster_growing` loop run to its fixpoint: every growing
pass adds at least one of the `n` positions, so `n` passes reach the point
where the source loop stops. -/
def closure (nbrs : ℕ → Finset ℕ) (n : ℕ) (s : Finset ℕ) : Finset ℕ :=
  (expand nbrs)^[n] s

/-- The seed loop of `get_clusters` / `get_hierarchical_clusters`: visit
positions in order; skip used seeds; when a seed has more than one
neighbor, grow the neighbor set transitively, collect the not-yet-used
members, mark the whole grown set used, and emit (seed, fresh members)
when more than one fresh member remains. -/
def get_clusters_go (nbrs : ℕ → Finset ℕ) (n : ℕ) :
    List ℕ → Finset ℕ → List (ℕ × Finset ℕ)
  | [], _ => []
  | i :: rest, used =>
    if i ∈ used then get_clusters_go nbrs n rest used
    else if 1 < (nbrs i).card then
      let S := closure nbrs n (nbrs i)
      let fresh := S \ used
      if 1 < fresh.card then
        (i, fresh) :: get_clusters_go nbrs n rest (used ∪ S)
      else
        get_clusters_go nbrs n rest (used ∪ S)
    else
      get_clusters_go nbrs n rest used

/-- Build the emitted cluster item list for a seed: each member as
`{'id': news_ids[idx], 'similarity': max(0.0, 1 - d²/2)}` of its distance
to the seed.  (Set iteration order is modelled as ascending.) -/
def mk_cluster_items (news_ids : List ℕ) (vectors : List Vec)
    (seed : ℕ) (fresh : Finset ℕ) : List (ℕ × ℚ) :=
  (fresh.sort (· ≤ ·)).map (fun idx =>
    (news_ids.getD idx 0,
     max 0 (1 - d2 (vectors.getD seed []) (vectors.getD idx []) / 2)))

/-- `FaissService.get_clusters` (membership and recorded similarities):
the produced `cluster_id → items` dict as a list in cluster-id order.
The index-refresh step is not repeated here: the function operates on the
state the refresh produced. -/
def get_clusters (s : FaissService) (min_similarity : ℚ) :
    List (List (ℕ × ℚ)) :=
  if s.vectors.length = 0 then []
  else
    let nbrs := neighbors s.vectors (2 * (1 - min_similarity))
    (get_clusters_go nbrs s.vectors.length
        (List.range s.vectors.length) ∅).map
      (fun p => mk_cluster_items s.news_ids s.vectors p.1 p.2)

/-! ### Recursive subclustering (`_split_cluster`, `_recursive_subcluster`) -/

/-- The per-seed loop of `_split_cluster`: transitive clustering over the
cluster's own temporary index of `m` local positions; groups are collected
in ascending position order (`sorted(similar)`), keeping singletons. -/
def split_go (nbrs : ℕ → Finset ℕ) (m : ℕ)
    (cluster_items : List (ℕ × ℚ)) (cluster_indices : List ℕ) :
    List ℕ → Finset ℕ → List (List (ℕ × ℚ) × List ℕ)
  | [], _ => []
  | i :: rest, used =>
    if i ∈ used then
      split_go nbrs m cluster_items cluster_indices rest used
    else
      let S := closure nbrs m (nbrs i)
      let grp := (S.sort (· ≤ ·)).filter
        (fun t => t < cluster_items.length ∧ t ∉ used)
      let used' := used ∪ S.filter (fun t => t < cluster_items.length)
      if grp.isEmpty then
        split_go nbrs m cluster_items cluster_indices rest used'
      else
        (grp.map (fun t => cluster_items.getD t (0, 0)),
         grp.map (fun t => cluster_indices.getD t 0)) ::
          split_go nbrs m cluster_items cluster_indices rest used'

/-- `FaissService._split_cluster`: split a cluster at a similarity
threshold by transitive clustering inside a temporary index over the
cluster's own vectors. -/
def split_cluster (vectors : List Vec)
    (cluster_items : List (ℕ × ℚ)) (cluster_indices : List ℕ)
    (similarity_threshold : ℚ) : List (List (ℕ × ℚ) × List ℕ) :=
  if cluster_items.length < 2 then [(cluster_items, cluster_indices)]
  else
    let cluster_vectors := cluster_indices.map (fun idx => vectors.getD idx [])
    let nbrs := neighbors cluster_vectors (2 * (1 - similarity_threshold))
    split_go nbrs cluster_vectors.length cluster_items cluster_indices
      (List.range cluster_vectors.length) ∅

/-- Python's `round(x, 2)` on similarity thresholds, modelled as rounding
to the nearest multiple of `1/100`. -/
def round2 (q : ℚ) : ℚ := (round (q * 100) : ℤ) / 100

/-- The `{'items': …, 'subclusters': None | […]}` tree returned by
`_recursive_subcluster`: `leaf` models `subclusters = None`, `node` a list
of child trees. -/
inductive ClusterTree where
  | leaf (items : List (ℕ × ℚ))
  | node (items : List (ℕ × ℚ)) (children : List ClusterTree)
deriving Repr

/-- The `while current_threshold <= max_similarity` loop of
`_recursive_subcluster`, with explicit fuel: try splitting at the current
threshold and advance it by `round(t + step, 2)` until a split with at
least two groups appears or the threshold exceeds `max_similarity`.
`try_split_fuel` always suffices when `1/100 ≤ step`. -/
def try_split (vectors : List Vec) (items : List (ℕ × ℚ))
    (indices : List ℕ) (step max_similarity : ℚ) :
    ℕ → ℚ → Option (ℚ × List (List (ℕ × ℚ) × List ℕ))
  | 0, _ => none
  | fuel + 1, t =>
    if t ≤ max_similarity then
      let result := split_cluster vectors items indices t
      if 1 < result.length then some (t, result)
      else try_split vectors items indices step max_similarity fuel
        (round2 (t + step))
    else none

/-- Fuel that covers every threshold the source loop can try when the step
is at least one hundredth (each rounded step advances by ≥ 1/200). -/
def try_split_fuel (t max_similarity : ℚ) : ℕ :=
  (⌈(max_similarity - t) * 200⌉).toNat + 1

/-- `_recursive_subcluster` with explicit structural fuel.  The fuel-zero
leaf is unreachable whenever `max_depth - depth ≤ fuel`, because the
depth guard fires first; `recursive_subcluster` supplies exactly that
fuel. -/
def recursive_subcluster_aux (vectors : List Vec)
    (max_cluster_size : ℕ) (similarity_step max_similarity : ℚ)
    (max_depth : ℕ) :
    ℕ → List (ℕ × ℚ) → List ℕ → ℚ → ℕ → ClusterTree
  | fuel, items, indices, t, depth =>
    if items.length ≤ max_cluster_size ∨ max_depth ≤ depth then
      .leaf items
    else
      match try_split vectors items indices similarity_step max_similarity
          (try_split_fuel t max_similarity) t with
      | none => .leaf items
      | some (t', subs) =>
        match fuel with
        | 0 => .leaf items
        | fuel' + 1 =>
          .node items (subs.map (fun p =>
            recursive_subcluster_aux vectors max_cluster_size
              similarity_step max_similarity max_depth
              fuel' p.1 p.2 (round2 (t' + similarity_step)) (depth + 1)))

/-- `FaissService._recursive_subcluster`: recursively split a cluster,
raising the threshold by `round(· + step, 2)` until it splits (or the cap
is passed), and recurse into each subgroup at the next threshold. -/
def recursive_subcluster (vectors : List Vec) (cluster_items : List (ℕ × ℚ))
    (cluster_indices : List ℕ) (similarity_threshold : ℚ)
    (max_cluster_size : ℕ) (similarity_step max_similarity : ℚ)
    (depth max_depth : ℕ) : ClusterTree :=
  recursive_subcluster_aux vectors max_cluster_size similarity_step
    max_similarity max_depth (max_depth - depth) cluster_items
    cluster_indices similarity_threshold depth

/-- `FaissService.get_hierarchical_clusters` (membership, similarities and
subcluster trees); parameters `similarity_step = 0.05`,
`max_similarity = 0.95`, `depth = 0`, `max_depth = 5` are the source's
call-site defaults. -/
def get_hierarchical_clusters (s : FaissService) (min_similarity : ℚ)
    (subcluster_min_size : ℕ) (subcluster_similarity : ℚ)
    (max_cluster_size : ℕ) :
    List (List (ℕ × ℚ) × Option (List ClusterTree)) :=
  if s.vectors.length = 0 then []
  else
    let nbrs := neighbors s.vectors (2 * (1 - min_similarity))
    (get_clusters_go nbrs s.vectors.length
        (List.range s.vectors.length) ∅).map
      (fun p =>
        let items := mk_cluster_items s.news_ids s.vectors p.1 p.2
        let subclusters :=
          if subcluster_min_size ≤ items.length then
            match recursive_subcluster s.vectors items (p.2.sort (· ≤ ·))
                subcluster_similarity max_cluster_size (5 / 100) (95 / 100)
                0 5 with
            | .leaf _ => none
            | .node _ children => some children
          else none
        (items, subclusters))

/-- Modelled from the spec's words, for comparison with the source
function: the threshold loop as the claim states it, advancing by exactly
`+ similarity_step` with no 2-decimal rounding. -/
def try_split_spec (vectors : List Vec) (items : List (ℕ × ℚ))
    (indices : List ℕ) (step max_similarity : ℚ) :
    ℕ → ℚ → Option (ℚ × List (List (ℕ × ℚ) × List ℕ))
  | 0, _ => none
  | fuel + 1, t =>
    if t ≤ max_similarity then
      let result := split_cluster vectors items indices t
      if 1 < result.length then some (t, result)
      else try_split_spec vectors items indices step max_similarity fuel
        (t + step)
    else none

/-- Fuel covering every exact-step threshold up to the cap (positive step). -/
def try_split_spec_fuel (t max_similarity step : ℚ) : ℕ :=
  (⌈(max_similarity - t) / step⌉).toNat + 1

/-- Modelled from the spec's words: `_recursive_subcluster` as the claim
states it — the split threshold advances in exact `similarity_step`
increments and each child is recursed with starting threshold
`t + similarity_step` (no rounding). -/
def recursive_subcluster_spec_aux (vectors : List Vec)
    (max_cluster_size : ℕ) (similarity_step max_similarity : ℚ)
    (max_depth : ℕ) :
    ℕ → List (ℕ × ℚ) → List ℕ → ℚ → ℕ → ClusterTree
  | fuel, items, indices, t, depth =>
    if items.length ≤ max_cluster_size ∨ max_depth ≤ depth then
      .leaf items
    else
      match try_split_spec vectors items indices similarity_step
          max_similarity (try_split_spec_fuel t max_similarity similarity_step)
          t with
      | none => .leaf items
      | some (t', subs) =>
        match fuel with
        | 0 => .leaf items
        | fuel' + 1 =>
          .node items (subs.map (fun p =>
            recursive_subcluster_spec_aux vectors max_cluster_size
              similarity_step max_similarity max_depth
              fuel' p.1 p.2 (t' + similarity_step) (depth + 1)))

/-- Modelled from the spec's words: entry point of the exact-increment
variant, to be compared with `recursive_subcluster`. -/
def recursive_subcluster_spec (vectors : List Vec)
    (cluster_items : List (ℕ × ℚ)) (cluster_indices : List ℕ)
    (similarity_threshold : ℚ) (max_cluster_size : ℕ)
    (similarity_step max_similarity : ℚ) (depth max_depth : ℕ) : ClusterTree :=
  recursive_subcluster_spec_aux vectors max_cluster_size similarity_step
    max_similarity max_depth (max_depth - depth) cluster_items
    cluster_indices similarity_threshold depth

/-! ### Crawler (`Crawler._cleanup_old_news`, `Crawler._process_news_item`) -/

/-- Rows kept by `DELETE … WHERE last_seen_at < retention_date`. -/
def retention_kept (store : List NewsRow) (retention_date : ℤ) : List NewsRow :=
  store.filter (fun r => ¬ r.last_seen_at < retention_date)

/-- Ordering used by the overflow subquery
(`ORDER BY last_seen_at DESC`); ties keep table order (a deterministic
choice for the SQL's unspecified tie order). -/
def newerRel (a b : NewsRow) : Prop := b.last_seen_at ≤ a.last_seen_at

instance : DecidableRel newerRel := fun a b =>
  inferInstanceAs (Decidable (b.last_seen_at ≤ a.last_seen_at))

instance : IsTotal NewsRow newerRel :=
  ⟨fun a b => (Int.le_total b.last_seen_at a.last_seen_at).imp id id⟩

instance : IsTrans NewsRow newerRel :=
  ⟨fun _ _ _ hab hbc => le_trans hbc hab⟩

/-- `Crawler._cleanup_old_news`: delete rows older than the retention
date, then, if more than `max_items` rows remain, delete the rows whose
ids the subquery `ORDER BY last_seen_at DESC OFFSET max_items` lists. -/
def cleanup_old_news (store : List NewsRow) (retention_date : ℤ)
    (max_items : ℕ) : List NewsRow :=
  let kept := retention_kept store retention_date
  if max_items < kept.length then
    let dropped_ids :=
      ((List.insertionSort newerRel kept).drop max_items).map (·.id)
    kept.filter (fun r => r.id ∉ dropped_ids)
  else kept

/-- The re-sighting UPDATE: bump `hit_count` and stamp `last_seen_at` on
the first row matching the URL (`.first()`), leaving every other row and
every other column untouched. -/
def update_resight (url : String) (now : ℤ) : List NewsRow → List NewsRow
  | [] => []
  | r :: rest =>
    if r.url = url then
      { r with hit_count := r.hit_count + 1, last_seen_at := now } :: rest
    else r :: update_resight url now rest

/-- Result of `_process_news_item`: the table afterwards plus how many
content fetches and embedding calls were made. -/
structure ProcessResult where
  store : List NewsRow
  fetch_calls : ℕ
  embed_calls : ℕ
deriving DecidableEq, Repr

/-- `Crawler._process_news_item`: skip empty input; run the cleanup; if a
row with the URL exists, re-sight it (no fetch, no embed); otherwise fetch
and extract the page (`fetch_content`, returning the summary), embed
`title + ". " + summary`, and append a fresh row with `hit_count = 1` and
both timestamps `now`.  Dropped items leave the (cleaned) table as is.
The Redis cache mirror of the source is a side channel that never touches
the table and is not modelled. -/
def process_news_item (fetch_content : String → Option String)
    (get_embedding : String → Option Vec)
    (store : List NewsRow) (title url source_url : String)
    (now retention_date : ℤ) (max_items : ℕ) (next_id : ℕ) : ProcessResult :=
  if title = "" ∨ url = "" then ⟨store, 0, 0⟩
  else
    let cleaned := cleanup_old_news store retention_date max_items
    if cleaned.any (fun r => r.url = url) then
      ⟨update_resight url now cleaned, 0, 0⟩
    else
      match fetch_content url with
      | none => ⟨cleaned, 1, 0⟩
      | some summary =>
        match get_embedding (title ++ ". " ++ summary) with
        | none => ⟨cleaned, 1, 1⟩
        | some embedding =>
          ⟨cleaned ++
            [{ id := next_id, title := title, summary := some summary,
               url := url, source_url := source_url,
               first_seen_at := now, last_seen_at := now,
               hit_count := 1, embedding := some embedding }], 1, 1⟩

/-! ### Query surface (`search_news`, `get_similar_news`) -/

/-- The pgvector fallback of `search_news`: rows ordered by
`cosine_distance(embedding, query)` ascending (the distance itself is
computed by the database), truncated to `limit`, each given
`similarity = (1.0 - distance) / 2.0`. -/
def fallbackRel (a b : ℕ × ℚ) : Prop := a.2 ≤ b.2

instance : DecidableRel fallbackRel := fun a b =>
  inferInstanceAs (Decidable (a.2 ≤ b.2))

instance : IsTotal (ℕ × ℚ) fallbackRel := ⟨fun a b => le_total a.2 b.2⟩

instance : IsTrans (ℕ × ℚ) fallbackRel := ⟨fun _ _ _ => le_trans⟩

/-- `GET /api/news/search` (`search_news` in `routes/api.py`): KNN against
the in-memory index with `k = limit*5` under a source filter else `limit`
and `min_similarity = 0.5`, hydrated against the table (`present`); when
that yields nothing, fall back to the cosine-distance query over the rows
(`fallback_rows` pairs each row id with its database-computed cosine
distance). -/
def search_news (normalize : Vec → Vec) (s : FaissService)
    (query_embedding : Vec) (source_filter : Bool) (limit : ℕ)
    (present : ℕ → Bool) (fallback_rows : List (ℕ × ℚ)) : List (ℕ × ℚ) :=
  let faiss_limit := if source_filter then limit * 5 else limit
  let news_items :=
    (search_similar normalize s query_embedding faiss_limit (1 / 2)).filter
      (fun p => present p.1)
  if news_items.isEmpty then
    ((List.insertionSort fallbackRel fallback_rows).take limit).map
      (fun p => (p.1, (1 - p.2) / 2))
  else news_items.take limit

/-- `GET /api/news/{id}/similar` (`get_similar_news`): 404 on an unknown
id; an id whose stored embedding is null answers `[]`; otherwise run the
index search with `k = limit + 1` and `min_similarity = 0.5`, drop the
article itself, truncate, and hydrate.  The search outcome is passed as an
`Except` so that the `except`-branch of the handler — which answers `[]`
on any internal failure — is part of the model. -/
def get_similar_news (store : List NewsRow) (news_id : ℕ) (limit : ℕ)
    (search_outcome : Except Unit (List (ℕ × ℚ))) :
    Except Unit (List (ℕ × ℚ)) :=
  match store.find? (fun r => r.id = news_id) with
  | none => Except.error ()
  | some news_item =>
    if news_item.embedding = none then Except.ok []
    else
      match search_outcome with
      | Except.error _ => Except.ok []
      | Except.ok similar_results =>
        let similar_ids_scores :=
          (similar_results.filter (fun p => p.1 ≠ news_id)).take limit
        Except.ok (similar_ids_scores.filter
          (fun p => store.any (fun r => r.id = p.1)))

/-! ### UMAP visualization (`generate_umap_visualization`) -/

/-- An enriched cluster as `generate_clusters` returns it, reduced to the
two fields `generate_umap_visualization` reads: the display name and the
member article ids (for `len(articles)` and `item['id']`). -/
structure EnrichedCluster where
  name : String
  article_ids : List ℕ
deriving DecidableEq, Repr

/-- A `preference_vectors` row. -/
structure PreferenceVec where
  id : ℕ
  title : String
  description : String
  embedding : Option Vec
deriving DecidableEq, Repr

/-- An emitted visualization point: a `type="news_item"` dict or a
`type="preference_vector"` dict. -/
inductive UMAPPoint where
  | newsPoint (id : ℕ) (title url source_url : String) (last_seen_at : ℤ)
      (x y : ℚ) (cluster_id : Option ℕ) (cluster_name : Option String)
      (opacity : ℚ)
  | prefPoint (id : ℕ) (title description : String) (x y : ℚ) (opacity : ℚ)
deriving DecidableEq, Repr

/-- Ranking for `sorted(clusters.keys(), key=…len(articles)…,
reverse=True)`: more articles first, ties keep dict insertion order
(Python's sort is stable). -/
def umapRankRel (a b : ℕ × EnrichedCluster) : Prop :=
  b.2.article_ids.length ≤ a.2.article_ids.length

instance : DecidableRel umapRankRel := fun a b =>
  inferInstanceAs (Decidable (b.2.article_ids.length ≤ a.2.article_ids.length))

instance : IsTotal (ℕ × EnrichedCluster) umapRankRel :=
  ⟨fun a b => (Nat.le_total b.2.article_ids.length a.2.article_ids.length).imp id id⟩

instance : IsTrans (ℕ × EnrichedCluster) umapRankRel :=
  ⟨fun _ _ _ hab hbc => Nat.le_trans hbc hab⟩

/-- The `TOP_N_CLUSTERS = 20` largest clusters by article count. -/
def top_cluster_ids (clusters : List (ℕ × EnrichedCluster)) : List ℕ :=
  ((List.insertionSort umapRankRel clusters).take 20).map (·.1)

/-- The `item_to_cluster` dict: the article's cluster id, considering only
top-20 clusters; a later cluster in dict order overwrites an earlier
assignment. -/
def item_to_cluster (clusters : List (ℕ × EnrichedCluster)) (top : List ℕ)
    (item_id : ℕ) : Option ℕ :=
  ((clusters.filter (fun p => p.1 ∈ top ∧ item_id ∈ p.2.article_ids)).map
    (·.1)).getLast?

/-- Age-based opacity of a news point (timestamps in seconds): 0.8 within
the last hour, 0.2 beyond a day, linear in between. -/
def umap_opacity (now last_seen : ℤ) : ℚ :=
  if now - 3600 ≤ last_seen then 8 / 10
  else if last_seen ≤ now - 86400 then 2 / 10
  else 8 / 10 - 6 / 10 * (((now - last_seen : ℚ) / 3600 - 1) / 23)

/-- `generate_umap_visualization`.  `clusters` is the value the inner
`generate_clusters` call produced; `project` is the fitted
`umap.UMAP(...).fit_transform` of the external library, mapping the
stacked embeddings to 2-D coordinates; `rows` are the table rows the
window query returns.  News embeddings are stacked first (only articles
assigned to a top-20 cluster, with shape-checked vectors), preference
vectors afterwards, and each point is emitted with its projected
coordinates. -/
def generate_umap_visualization (project : List Vec → List (ℚ × ℚ))
    (dimension : ℕ) (clusters : List (ℕ × EnrichedCluster))
    (rows : List NewsRow) (prefs : List PreferenceVec)
    (hours : ℕ) (now : ℤ) : List UMAPPoint :=
  let top := top_cluster_ids clusters
  let time_filter := now - hours * 3600
  let news_items := rows.filter
    (fun r => time_filter ≤ r.last_seen_at ∧ r.embedding.isSome)
  if news_items.isEmpty then []
  else
    let news_sel := news_items.filter (fun r =>
      (item_to_cluster clusters top r.id).isSome &&
        (match r.embedding with
         | some e => decide (e.length = dimension)
         | none => false))
    let pref_sel := prefs.filter (fun p =>
      match p.embedding with
      | some e => decide (e.length = dimension)
      | none => false)
    let all_embeddings := news_sel.map (fun r => r.embedding.getD []) ++
      pref_sel.map (fun p => p.embedding.getD [])
    if all_embeddings.isEmpty then []
    else
      let coords := project all_embeddings
      (news_sel.zip (coords.take news_sel.length)).map (fun q =>
        let cid := item_to_cluster clusters top q.1.id
        UMAPPoint.newsPoint q.1.id q.1.title q.1.url q.1.source_url
          q.1.last_seen_at q.2.1 q.2.2 cid
          (cid.bind (fun c =>
            (clusters.find? (fun p => p.1 = c)).map (fun p => p.2.name)))
          (umap_opacity now q.1.last_seen_at)) ++
      (pref_sel.zip (coords.drop news_sel.length)).map (fun q =>
        UMAPPoint.prefPoint q.1.id q.1.title q.1.description q.2.1 q.2.2 1)

/-! ### Facts about the KNN search -/

theorem mem_scoredIndices (vectors : List Vec) (q : Vec) (p : ℕ × ℚ) :
    p ∈ scoredIndices vectors q ↔
      p.1 < vectors.length ∧ p.2 = d2 q (vectors.getD p.1 []) := by
  constructor
  · intro h
    obtain ⟨j, hj, rfl⟩ := List.mem_map.mp h
    exact ⟨List.mem_range.mp hj, rfl⟩
  · rintro ⟨h1, h2⟩
    refine List.mem_map.mpr ⟨p.1, List.mem_range.mpr h1, ?_⟩
    exact Prod.ext rfl h2.symm

theorem knn_mem {vectors : List Vec} {q : Vec} {k : ℕ} {p : ℕ × ℚ}
    (h : p ∈ knn vectors q k) :
    p.1 < vectors.length ∧ p.2 = d2 q (vectors.getD p.1 []) :=
  (mem_scoredIndices _ _ _).mp
    ((List.mem_insertionSort knnRel).mp (List.mem_of_mem_take h))

theorem knn_sorted (vectors : List Vec) (q : Vec) (k : ℕ) :
    List.Sorted knnRel (knn vectors q k) :=
  (List.sorted_insertionSort knnRel _).sublist (List.take_sublist _ _)

theorem knn_length (vectors : List Vec) (q : Vec) (k : ℕ) :
    (knn vectors q k).length = min k vectors.length := by
  simp [knn, (List.perm_insertionSort knnRel (scoredIndices vectors q)).length_eq,
    scoredIndices]

theorem knn_smallest (vectors : List Vec) (q : Vec) (k j : ℕ)
    (hj : j < vectors.length) (hnot : j ∉ (knn vectors q k).map Prod.fst) :
    ∀ p ∈ knn vectors q k, p.2 ≤ d2 q (vectors.getD j []) := by
  intro p hp
  have hjmem : (j, d2 q (vectors.getD j [])) ∈
      List.insertionSort knnRel (scoredIndices vectors q) :=
    (List.mem_insertionSort knnRel).mpr
      ((mem_scoredIndices vectors q _).mpr ⟨hj, rfl⟩)
  have hpair : List.Pairwise knnRel
      (List.insertionSort knnRel (scoredIndices vectors q)) :=
    List.sorted_insertionSort _ _
  rw [← List.take_append_drop k
    (List.insertionSort knnRel (scoredIndices vectors q))] at hjmem hpair
  have hdrop : (j, d2 q (vectors.getD j [])) ∈
      (List.insertionSort knnRel (scoredIndices vectors q)).drop k := by
    rcases List.mem_append.mp hjmem with h | h
    · exact absurd (List.mem_map.mpr ⟨_, h, rfl⟩) hnot
    · exact h
  have hrel : knnRel p (j, d2 q (vectors.getD j [])) :=
    (List.pairwise_append.mp hpair).2.2 p hp _ hdrop
  rcases hrel with h | ⟨h, _⟩
  · exact le_of_lt h
  · exact le_of_eq h

/-! ### C9: empty rebuild window leaves the index untouched -/

/-- C9: if an index rebuild finds no article in the requested window with
an embedding present, `update_index` returns without modifying the state
(ids, vectors, timestamp all keep their previous values), and every
subsequent `search_similar` answers exactly as it did against the old
state — so it can return articles whose `last_seen_at` lies outside the
requested window. -/
theorem update_index_empty_window_noop (normalize : Vec → Vec)
    (dimension : ℕ) (s : FaissService) (rows : List NewsRow)
    (time_filter now : ℤ)
    (h : rows.filter
      (fun r => time_filter ≤ r.last_seen_at ∧ r.embedding.isSome) = []) :
    update_index normalize dimension s rows time_filter now = s ∧
    ∀ (normalize' : Vec → Vec) (q : Vec) (k : ℕ) (min_similarity : ℚ),
      search_similar normalize'
          (update_index normalize dimension s rows time_filter now)
          q k min_similarity =
        search_similar normalize' s q k min_similarity := by
  have h1 : update_index normalize dimension s rows time_filter now = s := by
    unfold update_index
    rw [h]
    simp
  exact ⟨h1, fun normalize' q k m => by rw [h1]⟩

/-- Witness for C9: a store holding one article last seen at t=10,
rebuilt over the window starting at t=50: the window query is empty, the
state is unchanged, and a search still returns the out-of-window
article 7. -/
theorem update_index_empty_window_noop_witness :
    ([({ id := 7, title := "t", summary := none, url := "u",
         source_url := "s", first_seen_at := 10, last_seen_at := 10,
         hit_count := 1, embedding := some [1, 0] } : NewsRow)].filter
      (fun r => (50 : ℤ) ≤ r.last_seen_at ∧ r.embedding.isSome) = []) ∧
    update_index id 2 ⟨[7], [[1, 0]], some 5⟩
      [{ id := 7, title := "t", summary := none, url := "u",
         source_url := "s", first_seen_at := 10, last_seen_at := 10,
         hit_count := 1, embedding := some [1, 0] }] 50 100 =
      ⟨[7], [[1, 0]], some 5⟩ ∧
    search_similar id
      (update_index id 2 ⟨[7], [[1, 0]], some 5⟩
        [{ id := 7, title := "t", summary := none, url := "u",
           source_url := "s", first_seen_at := 10, last_seen_at := 10,
           hit_count := 1, embedding := some [1, 0] }] 50 100)
      [1, 0] 1 0 = [(7, 1)] := by
  refine ⟨by decide, (update_index_empty_window_noop id 2 _ _ 50 100 (by decide)).1, ?_⟩
  rw [(update_index_empty_window_noop id 2 _ _ 50 100 (by decide)).1]
  with_unfolding_all decide

/-! ### C10: similar-news endpoint answers `[]` on null embeddings and failures -/

/-- C10: for an article id that exists in the store but whose stored
embedding is null, `GET /api/news/{id}/similar` answers the empty list
with a success status; and any internal failure of the similarity search
on this endpoint likewise yields the empty list instead of an error. -/
theorem get_similar_news_empty_on_null_or_failure (store : List NewsRow)
    (news_id limit : ℕ) (r : NewsRow)
    (hfind : store.find? (fun x => x.id = news_id) = some r) :
    (r.embedding = none →
      ∀ outcome, get_similar_news store news_id limit outcome = Except.ok []) ∧
    (∀ e, get_similar_news store news_id limit (Except.error e) = Except.ok []) := by
  constructor
  · intro hemb outcome
    simp [get_similar_news, hfind, hemb]
  · intro e
    by_cases hemb : r.embedding = none <;>
      simp [get_similar_news, hfind, hemb]

/-- The store of the C10 witness: one article, id 1, null embedding. -/
def c10store : List NewsRow :=
  [{ id := 1, title := "t", summary := none, url := "u",
     source_url := "s", first_seen_at := 10, last_seen_at := 20,
     hit_count := 3, embedding := none }]

/-- Witness for C10: article 1 exists with a null embedding: the endpoint
answers `ok []` both for a successful inner search and for a failing
one. -/
theorem get_similar_news_empty_on_null_or_failure_witness :
    get_similar_news c10store 1 5 (Except.ok [(2, 1)]) = Except.ok [] ∧
    get_similar_news c10store 1 5 (Except.error ()) = Except.ok [] :=
  ⟨(get_similar_news_empty_on_null_or_failure c10store 1 5
      { id := 1, title := "t", summary := none, url := "u",
        source_url := "s", first_seen_at := 10, last_seen_at := 20,
        hit_count := 3, embedding := none } (by decide)).1 rfl _,
   (get_similar_news_empty_on_null_or_failure c10store 1 5
      { id := 1, title := "t", summary := none, url := "u",
        source_url := "s", first_seen_at := 10, last_seen_at := 20,
        hit_count := 3, embedding := none } (by decide)).2 ()⟩

/-! ### C3: what `search_similar` returns -/

/-- C3 counterexample: two index entries at equal (zero) distance to the
query, article id 5 stored at position 0 and article id 3 at position 1.
The claim says the entry with the smaller article id (3) is ranked first;
the search ranks id 5 first, because ties are broken by index position,
not by article id. -/
theorem search_similar_tie_counterexample :
    search_similar id ⟨[5, 3], [[1, 0], [1, 0]], none⟩ [1, 0] 2 0 =
      [(5, 1), (3, 1)] ∧
    d2 [1, 0] [1, 0] = d2 [1, 0] [1, 0] ∧ ¬ (5 : ℕ) ≤ 3 := by
  with_unfolding_all decide

/-- C3 (amended): for every query, `k` and `min_similarity`,
`search_similar` returns the `k` index entries of smallest L2 distance to
the normalized query, converted via `similarity = 1 − L2²/2` and filtered
by `similarity ≥ min_similarity`; entries at equal distance are ranked by
ascending index position (insertion order), not by article id.  Stated
over the selection `knn`: (1) the result is exactly the converted,
filtered selection; (2) the selection is sorted by distance with
position-order ties; (3) each selected pair is a real (position,
distance) pair of the index; (4) exactly `min k n` entries are selected;
(5) no unselected position is closer than a selected one. -/
theorem search_similar_knn_characterization (normalize : Vec → Vec)
    (s : FaissService) (q : Vec) (k : ℕ) (min_similarity : ℚ)
    (h : s.vectors.length ≠ 0) :
    search_similar normalize s q k min_similarity =
      (knn s.vectors (normalize q) k).filterMap (fun p =>
        if min_similarity ≤ 1 - p.2 / 2 then
          some (s.news_ids.getD p.1 0, 1 - p.2 / 2)
        else none) ∧
    List.Sorted knnRel (knn s.vectors (normalize q) k) ∧
    (∀ p ∈ knn s.vectors (normalize q) k,
      p.1 < s.vectors.length ∧ p.2 = d2 (normalize q) (s.vectors.getD p.1 [])) ∧
    (knn s.vectors (normalize q) k).length = min k s.vectors.length ∧
    (∀ j, j < s.vectors.length →
      j ∉ (knn s.vectors (normalize q) k).map Prod.fst →
      ∀ p ∈ knn s.vectors (normalize q) k,
        p.2 ≤ d2 (normalize q) (s.vectors.getD j [])) :=
  ⟨by rw [search_similar, if_neg h],
   knn_sorted _ _ _,
   fun _ hp => knn_mem hp,
   knn_length _ _ _,
   fun j hj hnot => knn_smallest _ _ _ j hj hnot⟩

/-- Witness for C3's theorem at a concrete two-vector index. -/
theorem search_similar_knn_characterization_witness :
    List.Sorted knnRel (knn [[1, 0], [0, 1]] (id [1, 0]) 1) ∧
    (knn [[1, 0], [0, 1]] (id [1, 0]) 1).length = min 1 2 :=
  ⟨(search_similar_knn_characterization id ⟨[5, 3], [[1, 0], [0, 1]], none⟩
      [1, 0] 1 0 (by decide)).2.1,
   (search_similar_knn_characterization id ⟨[5, 3], [[1, 0], [0, 1]], none⟩
      [1, 0] 1 0 (by decide)).2.2.2.1⟩

/-! ### C8: recorded cluster-member similarity is clamped at 0 -/

/-- C8 counterexample: the unit vectors (1,0), (0,1), (−1,0) form one
transitive cluster at `min_similarity = 0` seeded at position 0; member
position 2 has `1 − L2²/2 = −1`, but the emitted similarity is `0` — the
source clamps with `max(0.0, …)`, so the recorded value is not the exact
(negative) seed similarity the claim states. -/
theorem cluster_similarity_clamped_counterexample :
    get_clusters ⟨[10, 11, 12], [[1, 0], [0, 1], [-1, 0]], none⟩ 0 =
      [[(10, 1), (11, 0), (12, 0)]] ∧
    1 - d2 [1, 0] [-1, 0] / 2 = -1 ∧ (0 : ℚ) ≠ -1 := by
  with_unfolding_all decide

/-- C8 (amended): for every cluster with seed vector `v_i` and every
member `j`, the similarity recorded for `j` equals
`max(0, 1 − L2²(v_i, v_j)/2)` — the seed-relative similarity clamped
below at 0, so negative values reached through a transitive chain are
recorded as 0. -/
theorem cluster_similarity_clamped (s : FaissService) (min_similarity : ℚ) :
    ∀ c ∈ get_clusters s min_similarity, ∃ seed,
      ∀ p ∈ c, ∃ idx,
        s.news_ids.getD idx 0 = p.1 ∧
        p.2 = max 0 (1 - d2 (s.vectors.getD seed []) (s.vectors.getD idx []) / 2) := by
  intro c hc
  rw [get_clusters] at hc
  by_cases h : s.vectors.length = 0
  · rw [if_pos h] at hc
    exact absurd hc (List.not_mem_nil c)
  · rw [if_neg h] at hc
    obtain ⟨pair, _, rfl⟩ := List.mem_map.mp hc
    refine ⟨pair.1, fun p hp => ?_⟩
    obtain ⟨idx, _, rfl⟩ := List.mem_map.mp hp
    exact ⟨idx, rfl, rfl⟩

/-- Witness for C8's amended theorem at the three-vector index. -/
theorem cluster_similarity_clamped_witness :
    [((10 : ℕ), (1 : ℚ)), (11, 0), (12, 0)] ∈
      get_clusters ⟨[10, 11, 12], [[1, 0], [0, 1], [-1, 0]], none⟩ 0 ∧
    ∃ seed, ∀ p ∈ [((10 : ℕ), (1 : ℚ)), (11, 0), (12, 0)], ∃ idx,
      ([10, 11, 12].getD idx 0 = p.1 ∧
       p.2 = max 0 (1 - d2 ([[1, 0], [0, 1], [-1, 0]].getD seed [])
         ([[1, 0], [0, 1], [-1, 0]].getD idx []) / 2)) :=
  ⟨by with_unfolding_all decide,
   cluster_similarity_clamped ⟨[10, 11, 12], [[1, 0], [0, 1], [-1, 0]], none⟩ 0
     _ (by with_unfolding_all decide)⟩

/-! ### C2: the range of the reported search similarity -/

theorem search_similar_bounds (normalize : Vec → Vec) (s : FaissService)
    (q : Vec) (k : ℕ) (min_similarity : ℚ) :
    ∀ p ∈ search_similar normalize s q k min_similarity,
      min_similarity ≤ p.2 ∧ p.2 ≤ 1 := by
  intro p hp
  rw [search_similar] at hp
  by_cases h : s.vectors.length = 0
  · rw [if_pos h] at hp
    exact absurd hp (List.not_mem_nil p)
  · rw [if_neg h] at hp
    obtain ⟨a, ha, hpa⟩ := List.mem_filterMap.mp hp
    by_cases hc : min_similarity ≤ 1 - a.2 / 2
    · rw [if_pos hc] at hpa
      obtain rfl : (s.news_ids.getD a.1 0, 1 - a.2 / 2) = p :=
        Option.some_injective _ hpa
      have hd : 0 ≤ a.2 := by
        rw [(knn_mem ha).2]
        exact d2_nonneg _ _
      exact ⟨hc, by linarith⟩
    · rw [if_neg hc] at hpa
      exact absurd hpa (by simp)

/-- C2 counterexample: with an empty in-memory index the endpoint takes
the durable-store fallback; a stored row at cosine distance 2 from the
query (opposite unit vectors) is reported with similarity
`(1 − 2)/2 = −1/2`, outside `[0, 1]`. -/
theorem search_news_similarity_counterexample :
    search_news id ⟨[], [], none⟩ [1] false 1 (fun _ => true) [(1, 2)] =
      [(1, -(1 / 2))] ∧
    ¬ (0 : ℚ) ≤ -(1 / 2) := by
  with_unfolding_all decide

/-- C2 (amended): results of the in-memory KNN path have similarity in
`[1/2, 1] ⊆ [0, 1]` (the hard-coded `min_similarity = 0.5` filter and
`1 − L2²/2 ≤ 1` for nonnegative squared distances); results of the
durable-store fallback path carry `(1 − cosine_distance)/2`, which for
cosine distances in `[0, 2]` lies in `[−1/2, 1/2]` — in `[0, 1]` only
when the cosine distance is at most 1.  Consequently every reported
similarity lies in `[−1/2, 1]`, not `[0, 1]`. -/
theorem search_news_similarity_range (normalize : Vec → Vec)
    (s : FaissService) (q : Vec) (source_filter : Bool) (limit : ℕ)
    (present : ℕ → Bool) (fallback_rows : List (ℕ × ℚ))
    (hfb : ∀ p ∈ fallback_rows, 0 ≤ p.2 ∧ p.2 ≤ 2) :
    (∀ p ∈ search_news normalize s q source_filter limit present fallback_rows,
      -(1 / 2) ≤ p.2 ∧ p.2 ≤ 1) ∧
    (∀ k : ℕ, ∀ p ∈ search_similar normalize s q k (1 / 2),
      1 / 2 ≤ p.2 ∧ p.2 ≤ 1) := by
  constructor
  · intro p hp
    rw [search_news] at hp
    by_cases he : ((search_similar normalize s q
        (if source_filter then limit * 5 else limit) (1 / 2)).filter
          (fun p => present p.1)).isEmpty
    · rw [if_pos he] at hp
      obtain ⟨a, ha, rfl⟩ := List.mem_map.mp hp
      have hafb : a ∈ fallback_rows :=
        (List.mem_insertionSort fallbackRel).mp (List.mem_of_mem_take ha)
      obtain ⟨h0, h2⟩ := hfb a hafb
      constructor <;> simp only <;> linarith
    · rw [if_neg he] at hp
      have hmem : p ∈ search_similar normalize s q
          (if source_filter then limit * 5 else limit) (1 / 2) :=
        List.mem_of_mem_filter (List.mem_of_mem_take hp)
      obtain ⟨hlo, hhi⟩ := search_similar_bounds normalize s q _ _ p hmem
      exact ⟨by linarith, hhi⟩
  · intro k p hp
    exact search_similar_bounds normalize s q k _ p hp

/-- Witness for C2's amended theorem: empty index, one fallback row at
cosine distance 2, whose reported pair `(1, −1/2)` satisfies the amended
bounds. -/
theorem search_news_similarity_range_witness :
    -(1 / 2) ≤ ((1 : ℕ), -(1 / 2 : ℚ)).2 ∧ ((1 : ℕ), -(1 / 2 : ℚ)).2 ≤ 1 :=
  (search_news_similarity_range id ⟨[], [], none⟩ [1] false 1 (fun _ => true)
    [(1, 2)] (by with_unfolding_all decide)).1 (1, -(1 / 2))
    (by with_unfolding_all decide)

/-! ### C4: re-sighting an already-stored URL -/

theorem update_resight_decomp (url : String) (now : ℤ) (l : List NewsRow)
    (h : ∃ r ∈ l, r.url = url) :
    ∃ pre r post,
      l = pre ++ r :: post ∧ (∀ p ∈ pre, p.url ≠ url) ∧ r.url = url ∧
      update_resight url now l =
        pre ++ { r with hit_count := r.hit_count + 1,
                        last_seen_at := now } :: post := by
  induction l with
  | nil =>
    obtain ⟨r, hr, _⟩ := h
    exact absurd hr (List.not_mem_nil r)
  | cons a l ih =>
    by_cases ha : a.url = url
    · exact ⟨[], a, l, rfl, by simp, ha, by simp [update_resight, ha]⟩
    · have h' : ∃ r ∈ l, r.url = url := by
        obtain ⟨r, hr, hru⟩ := h
        rcases List.mem_cons.mp hr with rfl | hr'
        · exact absurd hru ha
        · exact ⟨r, hr', hru⟩
      obtain ⟨pre, r, post, heq, hpre, hru, hupd⟩ := ih h'
      refine ⟨a :: pre, r, post, by rw [heq]; rfl, ?_, hru, ?_⟩
      · intro p hp
        rcases List.mem_cons.mp hp with rfl | hp'
        · exact ha
        · exact hpre p hp'
      · simp [update_resight, ha, hupd]

/-- The store of C4's counterexample and witness: one article, url "u",
last seen at t=20 with hit_count 3. -/
def c4store : List NewsRow :=
  [{ id := 1, title := "t", summary := some "s", url := "u",
     source_url := "src", first_seen_at := 10, last_seen_at := 20,
     hit_count := 3, embedding := some [1, 0] }]

/-- C4 counterexample: the article with url "u" is present in the store,
but its `last_seen_at` (20) lies before the retention cutoff (30), so the
pre-upsert cleanup deletes it and `_process_news_item` takes the
new-item branch: the page is fetched and embedded again
(`fetch_calls = embed_calls = 1`) and the row is recreated with
`hit_count = 1` and a fresh embedding — not `hit_count + 1` with all
other fields unchanged and no re-fetch, as the claim states for every
article present in the store. -/
theorem process_news_item_resight_counterexample :
    (∃ r ∈ c4store, r.url = "u") ∧
    process_news_item (fun _ => some "sum") (fun _ => some [1]) c4store
        "t2" "u" "src" 50 30 10 2 =
      ⟨[{ id := 2, title := "t2", summary := some "sum", url := "u",
          source_url := "src", first_seen_at := 50, last_seen_at := 50,
          hit_count := 1, embedding := some [1] }], 1, 1⟩ := by
  with_unfolding_all decide

/-- C4 (amended): for every article that is still present after the
pre-upsert retention sweep, processing a crawled item with the same URL
updates exactly that row — `hit_count` goes up by exactly 1 and
`last_seen_at` becomes `now` (the later timestamp whenever the clock did
not run backwards) — every other row and every other field (title,
summary, url, source_url, first_seen_at, embedding) is untouched, and no
content fetch and no embedding call happens.  (If the sweep deletes the
article first, the item is re-fetched, re-embedded and inserted fresh.) -/
theorem process_news_item_resight (fetch_content : String → Option String)
    (get_embedding : String → Option Vec) (store : List NewsRow)
    (title url source_url : String) (now retention_date : ℤ)
    (max_items next_id : ℕ) (htitle : title ≠ "") (hurl : url ≠ "")
    (hmem : ∃ r ∈ cleanup_old_news store retention_date max_items,
      r.url = url) :
    ∃ pre r post,
      cleanup_old_news store retention_date max_items = pre ++ r :: post ∧
      (∀ p ∈ pre, p.url ≠ url) ∧ r.url = url ∧
      process_news_item fetch_content get_embedding store title url
          source_url now retention_date max_items next_id =
        ⟨pre ++ { r with hit_count := r.hit_count + 1,
                         last_seen_at := now } :: post, 0, 0⟩ ∧
      (r.last_seen_at ≤ now → max r.last_seen_at now = now) := by
  obtain ⟨pre, r, post, heq, hpre, hru, hupd⟩ :=
    update_resight_decomp url now _ hmem
  refine ⟨pre, r, post, heq, hpre, hru, ?_, fun h => max_eq_right h⟩
  rw [process_news_item, if_neg (by simp [htitle, hurl]),
    if_pos (List.any_eq_true.mpr ⟨r, by rw [heq]; simp, by simp [hru]⟩), hupd]

/-- Witness for C4's amended theorem: re-sighting url "u" at t=50 with a
retention cutoff of 0 bumps `hit_count` from 3 to 4, stamps
`last_seen_at = 50`, and fetches and embeds nothing. -/
theorem process_news_item_resight_witness :
    ∃ pre r post,
      cleanup_old_news c4store 0 10 = pre ++ r :: post ∧
      (∀ p ∈ pre, p.url ≠ "u") ∧ r.url = "u" ∧
      process_news_item (fun _ => some "sum") (fun _ => some [1]) c4store
          "t2" "u" "src" 50 0 10 2 =
        ⟨pre ++ { r with hit_count := r.hit_count + 1,
                         last_seen_at := 50 } :: post, 0, 0⟩ ∧
      (r.last_seen_at ≤ 50 → max r.last_seen_at 50 = 50) :=
  process_news_item_resight (fun _ => some "sum") (fun _ => some [1]) c4store
    "t2" "u" "src" 50 0 10 2 (by decide) (by decide)
    (by with_unfolding_all decide)

/-! ### C5: the retention sweep keeps the newest rows -/

theorem sorted_take_mem_iff (l : List NewsRow) :
    List.Sorted newerRel l →
    (l.map (fun x => x.last_seen_at)).Nodup →
    ∀ r ∈ l, ∀ m : ℕ,
      (r ∈ l.take m ↔
        (l.filter (fun s => r.last_seen_at < s.last_seen_at)).length < m) := by
  induction l with
  | nil =>
    intro _ _ r hr
    exact absurd hr (List.not_mem_nil r)
  | cons a l ih =>
    intro hs hnd r hr m
    rw [List.sorted_cons] at hs
    obtain ⟨ha, hsl⟩ := hs
    rw [List.map_cons, List.nodup_cons] at hnd
    obtain ⟨hand, hlnd⟩ := hnd
    rcases List.mem_cons.mp hr with rfl | hrl
    · have hfilt :
          (r :: l).filter (fun s => decide (r.last_seen_at < s.last_seen_at)) = [] := by
        rw [List.filter_eq_nil_iff]
        intro b hb
        rcases List.mem_cons.mp hb with rfl | hbl
        · simp
        · have hba : b.last_seen_at ≤ r.last_seen_at := ha b hbl
          simp only [decide_eq_true_eq]
          omega
      rw [hfilt]
      cases m with
      | zero => simp
      | succ m => simp [List.take_succ_cons]
    · have hra : r ≠ a := by
        intro he
        exact hand (he ▸ List.mem_map.mpr ⟨r, hrl, rfl⟩)
      have hlta : r.last_seen_at < a.last_seen_at := by
        have h1 : r.last_seen_at ≤ a.last_seen_at := ha r hrl
        have h2 : r.last_seen_at ≠ a.last_seen_at := by
          intro he
          exact hand (he ▸ List.mem_map.mpr ⟨r, hrl, rfl⟩)
        omega
      have hfilt :
          (a :: l).filter (fun s => decide (r.last_seen_at < s.last_seen_at)) =
            a :: l.filter (fun s => decide (r.last_seen_at < s.last_seen_at)) := by
        simp [List.filter_cons, hlta]
      rw [hfilt]
      cases m with
      | zero => simp
      | succ m =>
        rw [List.take_succ_cons, List.length_cons, Nat.succ_lt_succ_iff,
          List.mem_cons]
        constructor
        · rintro (rfl | h)
          · exact absurd rfl hra
          · exact (ih hsl hlnd r hrl m).mp h
        · intro h
          exact Or.inr ((ih hsl hlnd r hrl m).mpr h)

theorem mem_retention_kept (store : List NewsRow) (retention_date : ℤ)
    (r : NewsRow) :
    r ∈ retention_kept store retention_date ↔
      r ∈ store ∧ retention_date ≤ r.last_seen_at := by
  rw [retention_kept, List.mem_filter]
  simp only [decide_eq_true_eq]
  constructor <;> rintro ⟨h1, h2⟩ <;> exact ⟨h1, by omega⟩

/-- C5: when the row count exceeds the configured maximum, the retention
sweep deletes the oldest-by-`last_seen_at` rows, so afterwards at most
`max_items` rows remain and a row of the table survives exactly when it
is inside the retention window and fewer than `max_items` in-window rows
are strictly newer — i.e. the survivors are exactly the `max_items`
in-window rows with the greatest `last_seen_at`; rows above that cutoff
rank are untouched (they survive as-is, fields included). -/
theorem cleanup_old_news_keeps_newest (store : List NewsRow)
    (retention_date : ℤ) (max_items : ℕ)
    (hids : (store.map (fun r => r.id)).Nodup)
    (hts : (store.map (fun r => r.last_seen_at)).Nodup) :
    (cleanup_old_news store retention_date max_items).length ≤ max_items ∧
    ∀ r ∈ store,
      (r ∈ cleanup_old_news store retention_date max_items ↔
        (retention_date ≤ r.last_seen_at ∧
          ((retention_kept store retention_date).filter
            (fun s => r.last_seen_at < s.last_seen_at)).length < max_items)) := by
  have hkept_sub : (retention_kept store retention_date).Sublist store :=
    List.filter_sublist _
  have hkids : ((retention_kept store retention_date).map (fun r => r.id)).Nodup :=
    hids.sublist (hkept_sub.map _)
  have hkts : ((retention_kept store retention_date).map
      (fun r => r.last_seen_at)).Nodup :=
    hts.sublist (hkept_sub.map _)
  have hkrows : (retention_kept store retention_date).Nodup :=
    List.Nodup.of_map _ hkids
  by_cases hover : max_items < (retention_kept store retention_date).length
  · have hcleanup : cleanup_old_news store retention_date max_items =
        (retention_kept store retention_date).filter (fun r =>
          r.id ∉ ((List.insertionSort newerRel
            (retention_kept store retention_date)).drop max_items).map
              (fun x => x.id)) := by
      simp only [cleanup_old_news]
      rw [if_pos hover]
    have hperm : (List.insertionSort newerRel
        (retention_kept store retention_date)).Perm
          (retention_kept store retention_date) :=
      List.perm_insertionSort _ _
    have hsrtnodup : (List.insertionSort newerRel
        (retention_kept store retention_date)).Nodup :=
      hperm.nodup_iff.mpr hkrows
    have hsorted : List.Sorted newerRel
        (List.insertionSort newerRel (retention_kept store retention_date)) :=
      List.sorted_insertionSort _ _
    have hsrt_ts : ((List.insertionSort newerRel
        (retention_kept store retention_date)).map
          (fun x => x.last_seen_at)).Nodup :=
      (hperm.map _).nodup_iff.mpr hkts
    have hdropmem : ∀ r ∈ retention_kept store retention_date,
        (r.id ∈ ((List.insertionSort newerRel
            (retention_kept store retention_date)).drop max_items).map
              (fun x => x.id) ↔
          r ∈ (List.insertionSort newerRel
            (retention_kept store retention_date)).drop max_items) := by
      intro r hrk
      constructor
      · intro h
        obtain ⟨s, hs, hsid⟩ := List.mem_map.mp h
        have hsk : s ∈ retention_kept store retention_date :=
          hperm.mem_iff.mp (List.mem_of_mem_drop hs)
        exact (List.inj_on_of_nodup_map hkids hsk hrk hsid) ▸ hs
      · intro h
        exact List.mem_map.mpr ⟨r, h, rfl⟩
    have hmain : ∀ x, (x ∈ cleanup_old_news store retention_date max_items ↔
        x ∈ (List.insertionSort newerRel
          (retention_kept store retention_date)).take max_items) := by
      intro x
      rw [hcleanup, List.mem_filter]
      simp only [decide_eq_true_eq]
      constructor
      · rintro ⟨hxk, hxnot⟩
        have hxsrt : x ∈ List.insertionSort newerRel
            (retention_kept store retention_date) := hperm.mem_iff.mpr hxk
        rw [← List.take_append_drop max_items (List.insertionSort newerRel
          (retention_kept store retention_date))] at hxsrt
        rcases List.mem_append.mp hxsrt with h | h
        · exact h
        · exact absurd ((hdropmem x hxk).mpr h) hxnot
      · intro hxt
        have hxsrt : x ∈ List.insertionSort newerRel
            (retention_kept store retention_date) := List.mem_of_mem_take hxt
        have hxk : x ∈ retention_kept store retention_date :=
          hperm.mem_iff.mp hxsrt
        refine ⟨hxk, fun hxid => ?_⟩
        exact List.disjoint_take_drop hsrtnodup (le_refl max_items)
          hxt ((hdropmem x hxk).mp hxid)
    constructor
    · have hpermtake : (cleanup_old_news store retention_date max_items).Perm
          ((List.insertionSort newerRel
            (retention_kept store retention_date)).take max_items) := by
        rw [List.perm_ext_iff_of_nodup
          (hcleanup ▸ (hkrows.filter _))
          (hsrtnodup.sublist (List.take_sublist _ _))]
        exact hmain
      rw [hpermtake.length_eq, List.length_take]
      exact min_le_left _ _
    · intro r hr
      constructor
      · intro hrc
        have hrk : r ∈ retention_kept store retention_date := by
          rw [hcleanup] at hrc
          exact (List.mem_filter.mp hrc).1
        refine ⟨((mem_retention_kept store retention_date r).mp hrk).2, ?_⟩
        have hcount := (sorted_take_mem_iff _ hsorted hsrt_ts r
          (hperm.mem_iff.mpr hrk) max_items).mp ((hmain r).mp hrc)
        rwa [(hperm.filter _).length_eq] at hcount
      · rintro ⟨hrd, hcount⟩
        have hrk : r ∈ retention_kept store retention_date :=
          (mem_retention_kept store retention_date r).mpr ⟨hr, hrd⟩
        rw [hmain r]
        apply (sorted_take_mem_iff _ hsorted hsrt_ts r
          (hperm.mem_iff.mpr hrk) max_items).mpr
        rw [(hperm.filter _).length_eq]
        exact hcount
  · have hcleanup : cleanup_old_news store retention_date max_items =
        retention_kept store retention_date := by
      simp only [cleanup_old_news]
      rw [if_neg hover]
    constructor
    · rw [hcleanup]
      omega
    · intro r hr
      rw [hcleanup]
      constructor
      · intro hrk
        refine ⟨((mem_retention_kept store retention_date r).mp hrk).2, ?_⟩
        have hlt : ((retention_kept store retention_date).filter
            (fun s => decide (r.last_seen_at < s.last_seen_at))).length <
              (retention_kept store retention_date).length :=
          List.length_filter_lt_length_iff_exists.mpr ⟨r, hrk, by simp⟩
        omega
      · rintro ⟨hrd, _⟩
        exact (mem_retention_kept store retention_date r).mpr ⟨hr, hrd⟩

/-- The store of C5's witness: five rows, ids 1..5, last seen at
t = 1..5. -/
def c5store : List NewsRow :=
  [{ id := 1, title := "a", summary := none, url := "u1", source_url := "s",
     first_seen_at := 1, last_seen_at := 1, hit_count := 1, embedding := none },
   { id := 2, title := "b", summary := none, url := "u2", source_url := "s",
     first_seen_at := 2, last_seen_at := 2, hit_count := 1, embedding := none },
   { id := 3, title := "c", summary := none, url := "u3", source_url := "s",
     first_seen_at := 3, last_seen_at := 3, hit_count := 1, embedding := none },
   { id := 4, title := "d", summary := none, url := "u4", source_url := "s",
     first_seen_at := 4, last_seen_at := 4, hit_count := 1, embedding := none },
   { id := 5, title := "e", summary := none, url := "u5", source_url := "s",
     first_seen_at := 5, last_seen_at := 5, hit_count := 1,
     embedding := none }]

/-- Witness for C5: with `max_items = 3` and rows last seen at t=1..5,
the sweep's survivors carry `last_seen_at` exactly {3, 4, 5}. -/
theorem cleanup_old_news_keeps_newest_witness :
    ((cleanup_old_news c5store 0 3).length ≤ 3 ∧
    ∀ r ∈ c5store,
      (r ∈ cleanup_old_news c5store 0 3 ↔
        ((0 : ℤ) ≤ r.last_seen_at ∧
          ((retention_kept c5store 0).filter
            (fun s => r.last_seen_at < s.last_seen_at)).length < 3))) ∧
    (cleanup_old_news c5store 0 3).map (fun r => r.last_seen_at) = [3, 4, 5] :=
  ⟨cleanup_old_news_keeps_newest c5store 0 3 (by decide) (by decide),
   by with_unfolding_all decide⟩

/-! ### C6: one clustering build is a partial partition -/

theorem d2_comm (u v : Vec) : d2 u v = d2 v u := by
  induction u generalizing v with
  | nil => cases v <;> simp [d2]
  | cons a u ih =>
    cases v with
    | nil => simp [d2]
    | cons b v =>
      have harith : (a - b) ^ 2 = (b - a) ^ 2 := by ring
      simp only [d2, List.zip_cons_cons, List.map_cons, List.sum_cons] at ih ⊢
      rw [harith, ih]

theorem subset_expand (nbrs : ℕ → Finset ℕ) (s : Finset ℕ) :
    s ⊆ expand nbrs s :=
  Finset.subset_union_left

theorem expand_subset_range (nbrs : ℕ → Finset ℕ) (n : ℕ) (s : Finset ℕ)
    (hn : ∀ j, nbrs j ⊆ Finset.range n) (hs : s ⊆ Finset.range n) :
    expand nbrs s ⊆ Finset.range n :=
  Finset.union_subset hs (Finset.biUnion_subset.mpr (fun j _ => hn j))

theorem iterate_expand_subset_range (nbrs : ℕ → Finset ℕ) (n : ℕ)
    (s : Finset ℕ) (hn : ∀ j, nbrs j ⊆ Finset.range n)
    (hs : s ⊆ Finset.range n) (k : ℕ) :
    (expand nbrs)^[k] s ⊆ Finset.range n := by
  induction k with
  | zero => exact hs
  | succ k ih =>
    rw [Function.iterate_succ_apply']
    exact expand_subset_range nbrs n _ hn ih

theorem closure_subset_range (nbrs : ℕ → Finset ℕ) (n : ℕ) (s : Finset ℕ)
    (hn : ∀ j, nbrs j ⊆ Finset.range n) (hs : s ⊆ Finset.range n) :
    closure nbrs n s ⊆ Finset.range n :=
  iterate_expand_subset_range nbrs n s hn hs n

theorem closure_no_entry (nbrs : ℕ → Finset ℕ) (n i : ℕ) (s : Finset ℕ)
    (hn : ∀ j, nbrs j ⊆ Finset.range n) (hs_range : s ⊆ Finset.range n)
    (hI : ∀ j, j < n → i ∈ nbrs j → j = i) (hs : i ∉ s) :
    i ∉ closure nbrs n s := by
  have aux : ∀ k, i ∉ (expand nbrs)^[k] s ∧
      (expand nbrs)^[k] s ⊆ Finset.range n := by
    intro k
    induction k with
    | zero => exact ⟨hs, hs_range⟩
    | succ k ih =>
      rw [Function.iterate_succ_apply']
      refine ⟨?_, expand_subset_range nbrs n _ hn ih.2⟩
      intro hmem
      rcases Finset.mem_union.mp hmem with h | h
      · exact ih.1 h
      · obtain ⟨j, hj, hij⟩ := Finset.mem_biUnion.mp h
        have hjn : j < n := Finset.mem_range.mp (ih.2 hj)
        exact ih.1 ((hI j hjn hij) ▸ hj)
  exact (aux n).1

theorem get_clusters_go_spec (nbrs : ℕ → Finset ℕ) (n : ℕ)
    (hn : ∀ j, nbrs j ⊆ Finset.range n) :
    ∀ (queue : List ℕ) (used : Finset ℕ),
      (∀ p ∈ get_clusters_go nbrs n queue used,
        p.1 ∈ queue ∧ 1 < p.2.card ∧ Disjoint p.2 used ∧
        p.2 ⊆ Finset.range n ∧ 1 < (nbrs p.1).card ∧
        p.2 ⊆ closure nbrs n (nbrs p.1)) ∧
      List.Pairwise (fun a b => Disjoint a.2 b.2)
        (get_clusters_go nbrs n queue used) := by
  intro queue
  induction queue with
  | nil =>
    intro used
    constructor
    · intro p hp
      exact absurd hp (List.not_mem_nil p)
    · exact List.Pairwise.nil
  | cons i rest ih =>
    intro used
    by_cases hiu : i ∈ used
    · rw [get_clusters_go, if_pos hiu]
      refine ⟨fun p hp => ?_, (ih used).2⟩
      obtain ⟨hq, h2⟩ := (ih used).1 p hp
      exact ⟨List.mem_cons_of_mem i hq, h2⟩
    · by_cases hcard : 1 < (nbrs i).card
      · by_cases hfresh : 1 < (closure nbrs n (nbrs i) \ used).card
        · rw [get_clusters_go, if_neg hiu, if_pos hcard]
          simp only [if_pos hfresh]
          constructor
          · intro p hp
            rcases List.mem_cons.mp hp with rfl | hp'
            · refine ⟨List.mem_cons_self i rest, hfresh,
                Finset.sdiff_disjoint, ?_, hcard, Finset.sdiff_subset⟩
              exact Finset.Subset.trans Finset.sdiff_subset
                (closure_subset_range nbrs n _ hn (hn i))
            · obtain ⟨hq, hc, hd, hr⟩ := (ih (used ∪ closure nbrs n (nbrs i))).1 p hp'
              exact ⟨List.mem_cons_of_mem i hq, hc,
                (Finset.disjoint_union_right.mp hd).1, hr⟩
          · refine List.Pairwise.cons ?_ (ih (used ∪ closure nbrs n (nbrs i))).2
            intro b hb
            obtain ⟨_, _, hd, _⟩ := (ih (used ∪ closure nbrs n (nbrs i))).1 b hb
            have hdS : Disjoint b.2 (closure nbrs n (nbrs i)) :=
              (Finset.disjoint_union_right.mp hd).2
            exact (hdS.symm.mono_left Finset.sdiff_subset)
        · rw [get_clusters_go, if_neg hiu, if_pos hcard]
          simp only [if_neg hfresh]
          refine ⟨fun p hp => ?_, (ih (used ∪ closure nbrs n (nbrs i))).2⟩
          obtain ⟨hq, hc, hd, hr⟩ := (ih (used ∪ closure nbrs n (nbrs i))).1 p hp
          exact ⟨List.mem_cons_of_mem i hq, hc,
            (Finset.disjoint_union_right.mp hd).1, hr⟩
      · rw [get_clusters_go, if_neg hiu, if_neg hcard]
        refine ⟨fun p hp => ?_, (ih used).2⟩
        obtain ⟨hq, h2⟩ := (ih used).1 p hp
        exact ⟨List.mem_cons_of_mem i hq, h2⟩

/-- C6: the clusters of one build (both the flat `get_clusters` and the
top level of `get_hierarchical_clusters`) form a partial partition: the
member-id sets of any two distinct clusters are disjoint, every cluster
has at least 2 members, and an item whose only neighbor at the threshold
is itself appears in no cluster. -/
theorem clusters_partial_partition (s : FaissService) (min_similarity : ℚ)
    (subcluster_min_size : ℕ) (subcluster_similarity : ℚ)
    (max_cluster_size : ℕ)
    (hlen : s.news_ids.length = s.vectors.length) (hids : s.news_ids.Nodup) :
    List.Pairwise (fun c₁ c₂ => ∀ a ∈ c₁.map Prod.fst, a ∉ c₂.map Prod.fst)
      (get_clusters s min_similarity) ∧
    (∀ c ∈ get_clusters s min_similarity, 2 ≤ c.length) ∧
    (∀ i, i < s.vectors.length →
      (∀ j, j ∈ neighbors s.vectors (2 * (1 - min_similarity)) i → j = i) →
      ∀ c ∈ get_clusters s min_similarity,
        s.news_ids.getD i 0 ∉ c.map Prod.fst) ∧
    List.Pairwise
      (fun c₁ c₂ => ∀ a ∈ c₁.1.map Prod.fst, a ∉ c₂.1.map Prod.fst)
      (get_hierarchical_clusters s min_similarity subcluster_min_size
        subcluster_similarity max_cluster_size) ∧
    (∀ c ∈ get_hierarchical_clusters s min_similarity subcluster_min_size
        subcluster_similarity max_cluster_size, 2 ≤ c.1.length) := by
  by_cases hn0 : s.vectors.length = 0
  · rw [get_clusters, get_hierarchical_clusters, if_pos hn0, if_pos hn0]
    exact ⟨List.Pairwise.nil, fun c hc => absurd hc (List.not_mem_nil c),
      fun i _ _ c hc => absurd hc (List.not_mem_nil c),
      List.Pairwise.nil, fun c hc => absurd hc (List.not_mem_nil c)⟩
  · have hn : ∀ j, neighbors s.vectors (2 * (1 - min_similarity)) j ⊆
        Finset.range s.vectors.length := fun j => Finset.filter_subset _ _
    have hspec := get_clusters_go_spec
      (neighbors s.vectors (2 * (1 - min_similarity))) s.vectors.length hn
      (List.range s.vectors.length) ∅
    have hinj : ∀ i1 i2, i1 < s.vectors.length → i2 < s.vectors.length →
        s.news_ids.getD i1 0 = s.news_ids.getD i2 0 → i1 = i2 := by
      intro i1 i2 h1 h2 he
      have e1 := List.getD_eq_getElem s.news_ids 0
        (show i1 < s.news_ids.length by omega)
      have e2 := List.getD_eq_getElem s.news_ids 0
        (show i2 < s.news_ids.length by omega)
      rw [e1, e2] at he
      exact (List.Nodup.getElem_inj_iff hids).mp he
    have hmem_mk : ∀ (seed : ℕ) (fresh : Finset ℕ) (a : ℕ),
        (a ∈ (mk_cluster_items s.news_ids s.vectors seed fresh).map Prod.fst ↔
          ∃ idx ∈ fresh, s.news_ids.getD idx 0 = a) := by
      intro seed fresh a
      rw [mk_cluster_items, List.map_map]
      simp [List.mem_map, Finset.mem_sort]
    have hlen_mk : ∀ (seed : ℕ) (fresh : Finset ℕ),
        (mk_cluster_items s.news_ids s.vectors seed fresh).length =
          fresh.card := by
      intro seed fresh
      simp [mk_cluster_items, Finset.length_sort]
    have hdisj_pair : ∀ p q : ℕ × Finset ℕ,
        p.2 ⊆ Finset.range s.vectors.length →
        q.2 ⊆ Finset.range s.vectors.length → Disjoint p.2 q.2 →
        ∀ a ∈ (mk_cluster_items s.news_ids s.vectors p.1 p.2).map Prod.fst,
          a ∉ (mk_cluster_items s.news_ids s.vectors q.1 q.2).map Prod.fst := by
      intro p q hpr hqr hd a ha hb
      obtain ⟨idx1, hidx1, he1⟩ := (hmem_mk p.1 p.2 a).mp ha
      obtain ⟨idx2, hidx2, he2⟩ := (hmem_mk q.1 q.2 a).mp hb
      have h1n : idx1 < s.vectors.length := Finset.mem_range.mp (hpr hidx1)
      have h2n : idx2 < s.vectors.length := Finset.mem_range.mp (hqr hidx2)
      exact absurd hidx2
        (Finset.disjoint_left.mp hd ((hinj idx1 idx2 h1n h2n
          (he1.trans he2.symm)) ▸ hidx1))
    have hiso_core : ∀ i, i < s.vectors.length →
        (∀ j, j ∈ neighbors s.vectors (2 * (1 - min_similarity)) i → j = i) →
        ∀ p ∈ get_clusters_go (neighbors s.vectors (2 * (1 - min_similarity)))
            s.vectors.length (List.range s.vectors.length) ∅,
          s.news_ids.getD i 0 ∉
            (mk_cluster_items s.news_ids s.vectors p.1 p.2).map Prod.fst := by
      intro i hi hiso p hp hmem
      obtain ⟨hq, hcard2, _, hrange, hncard, hclo⟩ := hspec.1 p hp
      obtain ⟨idx, hidx, he⟩ := (hmem_mk p.1 p.2 _).mp hmem
      have hidxn : idx < s.vectors.length := Finset.mem_range.mp (hrange hidx)
      have hie : idx = i := hinj idx i hidxn hi he
      have hiclo : i ∈ closure (neighbors s.vectors (2 * (1 - min_similarity)))
          s.vectors.length
          (neighbors s.vectors (2 * (1 - min_similarity)) p.1) :=
        hclo (hie ▸ hidx)
      by_cases hpi : p.1 = i
      · have hsub : neighbors s.vectors (2 * (1 - min_similarity)) i ⊆ {i} := by
          intro j hj
          exact Finset.mem_singleton.mpr (hiso j hj)
        have := Finset.card_le_card hsub
        rw [Finset.card_singleton] at this
        rw [hpi] at hncard
        omega
      · have hI : ∀ j, j < s.vectors.length →
            i ∈ neighbors s.vectors (2 * (1 - min_similarity)) j → j = i := by
          intro j hj hij
          obtain ⟨_, hcond⟩ := Finset.mem_filter.mp hij
          refine hiso j (Finset.mem_filter.mpr ⟨Finset.mem_range.mpr hj, ?_⟩)
          rw [d2_comm]
          exact hcond
        have hp1n : p.1 < s.vectors.length := List.mem_range.mp hq
        refine closure_no_entry _ _ i _ hn (hn p.1) hI ?_ hiclo
        intro hcontra
        exact hpi (hI p.1 hp1n hcontra)
    constructor
    · rw [get_clusters, if_neg hn0, List.pairwise_map]
      refine List.Pairwise.imp_of_mem ?_ hspec.2
      intro p q hp hq hd
      exact hdisj_pair p q (hspec.1 p hp).2.2.2.1 (hspec.1 q hq).2.2.2.1 hd
    constructor
    · intro c hc
      rw [get_clusters, if_neg hn0] at hc
      obtain ⟨p, hp, rfl⟩ := List.mem_map.mp hc
      have := (hspec.1 p hp).2.1
      rw [hlen_mk]
      omega
    constructor
    · intro i hi hiso c hc
      rw [get_clusters, if_neg hn0] at hc
      obtain ⟨p, hp, rfl⟩ := List.mem_map.mp hc
      exact hiso_core i hi hiso p hp
    constructor
    · rw [get_hierarchical_clusters, if_neg hn0, List.pairwise_map]
      refine List.Pairwise.imp_of_mem ?_ hspec.2
      intro p q hp hq hd
      exact hdisj_pair p q (hspec.1 p hp).2.2.2.1 (hspec.1 q hq).2.2.2.1 hd
    · intro c hc
      rw [get_hierarchical_clusters, if_neg hn0] at hc
      obtain ⟨p, hp, rfl⟩ := List.mem_map.mp hc
      have := (hspec.1 p hp).2.1
      rw [hlen_mk]
      omega

/-- Witness for C6 at a concrete three-vector index: positions 0 and 1
hold the same vector and form one cluster; position 2 is isolated. -/
theorem clusters_partial_partition_witness :
    List.Pairwise (fun c₁ c₂ => ∀ a ∈ c₁.map Prod.fst, a ∉ c₂.map Prod.fst)
      (get_clusters ⟨[1, 2, 3], [[1, 0], [1, 0], [0, 1]], none⟩ (9 / 10)) ∧
    ∀ c ∈ get_clusters ⟨[1, 2, 3], [[1, 0], [1, 0], [0, 1]], none⟩ (9 / 10),
      2 ≤ c.length :=
  ⟨(clusters_partial_partition ⟨[1, 2, 3], [[1, 0], [1, 0], [0, 1]], none⟩
      (9 / 10) 3 (95 / 100) 10 (by decide) (by decide)).1,
   (clusters_partial_partition ⟨[1, 2, 3], [[1, 0], [1, 0], [0, 1]], none⟩
      (9 / 10) 3 (95 / 100) 10 (by decide) (by decide)).2.1⟩

/-! ### C7: the shape of the recursive subcluster tree -/

/-- The thresholds the `while current_threshold <= max_similarity` loop
tries when it starts at `t`: `t` itself (when within the cap) and
everything tried after advancing to `round(t + step, 2)`. -/
inductive Tried (step max_similarity : ℚ) : ℚ → ℚ → Prop
  | start (t : ℚ) : t ≤ max_similarity → Tried step max_similarity t t
  | next (t u : ℚ) : t ≤ max_similarity →
      Tried step max_similarity (round2 (t + step)) u →
      Tried step max_similarity t u

theorem round2_ge (q : ℚ) : q - 1 / 200 ≤ round2 q := by
  rw [round2]
  have h := abs_sub_round (q * 100)
  rw [abs_le] at h
  have h1 : q * 100 - 1 / 2 ≤ (round (q * 100) : ℚ) := by linarith [h.2]
  linarith

/-- Every threshold in a `Tried` chain is within the cap. -/
theorem Tried.le_cap {step max_similarity a u : ℚ}
    (h : Tried step max_similarity a u) : a ≤ max_similarity := by
  cases h with
  | start _ ht => exact ht
  | next _ _ ht _ => exact ht

theorem try_split_fuel_decrease (t max_similarity step : ℚ)
    (hstep : 1 / 100 ≤ step)
    (hnext_le : round2 (t + step) ≤ max_similarity) :
    try_split_fuel (round2 (t + step)) max_similarity + 1 ≤
      try_split_fuel t max_similarity := by
  rw [try_split_fuel, try_split_fuel]
  have hnext : t + 1 / 200 ≤ round2 (t + step) := by
    have := round2_ge (t + step)
    linarith
  have hB0 : (0 : ℤ) ≤ ⌈(max_similarity - round2 (t + step)) * 200⌉ := by
    apply Int.ceil_nonneg
    have h0 : (0 : ℚ) ≤ max_similarity - round2 (t + step) := by linarith
    positivity
  have hBA : ⌈(max_similarity - round2 (t + step)) * 200⌉ ≤
      ⌈(max_similarity - t) * 200⌉ - 1 := by
    have h1 : (max_similarity - round2 (t + step)) * 200 ≤
        (max_similarity - t) * 200 - 1 := by linarith
    calc ⌈(max_similarity - round2 (t + step)) * 200⌉
        ≤ ⌈(max_similarity - t) * 200 - 1⌉ := Int.ceil_le_ceil h1
      _ = ⌈(max_similarity - t) * 200⌉ - 1 := Int.ceil_sub_one _
  omega

theorem try_split_none_all_single (vectors : List Vec)
    (items : List (ℕ × ℚ)) (indices : List ℕ) (step max_similarity : ℚ)
    (hstep : 1 / 100 ≤ step) :
    ∀ (t u : ℚ), Tried step max_similarity t u →
      ∀ fuel, try_split_fuel t max_similarity ≤ fuel →
        try_split vectors items indices step max_similarity fuel t = none →
        (split_cluster vectors items indices u).length ≤ 1 := by
  intro t u htried
  induction htried with
  | start t ht =>
    intro fuel hfuel hnone
    cases fuel with
    | zero =>
      rw [try_split_fuel] at hfuel
      omega
    | succ f =>
      simp only [try_split, if_pos ht] at hnone
      by_cases hlen : 1 < (split_cluster vectors items indices t).length
      · rw [if_pos hlen] at hnone
        exact absurd hnone (by simp)
      · omega
  | next t u ht htr ih =>
    intro fuel hfuel hnone
    cases fuel with
    | zero =>
      rw [try_split_fuel] at hfuel
      omega
    | succ f =>
      simp only [try_split, if_pos ht] at hnone
      by_cases hlen : 1 < (split_cluster vectors items indices t).length
      · rw [if_pos hlen] at hnone
        exact absurd hnone (by simp)
      · rw [if_neg hlen] at hnone
        refine ih f ?_ hnone
        have := try_split_fuel_decrease t max_similarity step hstep htr.le_cap
        omega

theorem try_split_some_spec (vectors : List Vec) (items : List (ℕ × ℚ))
    (indices : List ℕ) (step max_similarity : ℚ) :
    ∀ (fuel : ℕ) (t t' : ℚ) (subs : List (List (ℕ × ℚ) × List ℕ)),
      try_split vectors items indices step max_similarity fuel t =
        some (t', subs) →
      Tried step max_similarity t t' ∧
        split_cluster vectors items indices t' = subs ∧ 1 < subs.length := by
  intro fuel
  induction fuel with
  | zero =>
    intro t t' subs h
    rw [try_split] at h
    exact absurd h (by simp)
  | succ f ih =>
    intro t t' subs h
    by_cases ht : t ≤ max_similarity
    · simp only [try_split, if_pos ht] at h
      by_cases hlen : 1 < (split_cluster vectors items indices t).length
      · rw [if_pos hlen] at h
        rw [Option.some.injEq, Prod.mk.injEq] at h
        obtain ⟨rfl, hsubs⟩ := h
        exact ⟨Tried.start t ht, hsubs, hsubs ▸ hlen⟩
      · rw [if_neg hlen] at h
        obtain ⟨htr, hs, hl⟩ := ih _ _ _ h
        exact ⟨Tried.next t t' ht htr, hs, hl⟩
    · simp only [try_split, if_neg ht] at h
      exact absurd h (by simp)

/-- C7 (amended): in the tree `_recursive_subcluster` builds (from any
node's parameters, with a step of at least one hundredth and a depth
within bounds — the defaults are step 0.05, depth 0, max depth 5):
a leaf is produced only when its size is at most `max_cluster_size`, or
its depth equals `max_depth`, or every threshold the loop tried — the
start and its `round(·+step, 2)` increments up to `max_similarity` —
yielded at most one group; and when the node splits, the split happened
at a tried threshold `t'` with at least two groups, and each child is
recursed with starting threshold `round(t' + step, 2)` (the 2-decimal
rounding of `t' + step`) at depth one deeper. -/
theorem recursive_subcluster_structure (vectors : List Vec)
    (items : List (ℕ × ℚ)) (indices : List ℕ) (t : ℚ)
    (max_cluster_size : ℕ) (step max_similarity : ℚ) (depth max_depth : ℕ)
    (hstep : 1 / 100 ≤ step) (hdepth : depth ≤ max_depth) :
    (recursive_subcluster vectors items indices t max_cluster_size step
        max_similarity depth max_depth = ClusterTree.leaf items →
      (items.length ≤ max_cluster_size ∨ depth = max_depth ∨
        ∀ u, Tried step max_similarity t u →
          (split_cluster vectors items indices u).length ≤ 1)) ∧
    (∀ children,
      recursive_subcluster vectors items indices t max_cluster_size step
          max_similarity depth max_depth = ClusterTree.node items children →
      ∃ t' subs, Tried step max_similarity t t' ∧
        split_cluster vectors items indices t' = subs ∧ 1 < subs.length ∧
        children = subs.map (fun p =>
          recursive_subcluster vectors p.1 p.2 (round2 (t' + step))
            max_cluster_size step max_similarity (depth + 1) max_depth)) := by
  rw [recursive_subcluster]
  by_cases hbase : items.length ≤ max_cluster_size ∨ max_depth ≤ depth
  · constructor
    · intro _
      rcases hbase with h | h
      · exact Or.inl h
      · exact Or.inr (Or.inl (by omega))
    · intro children hchild
      rw [recursive_subcluster_aux, if_pos hbase] at hchild
      exact absurd hchild (by simp)
  · cases hsplit : try_split vectors items indices step max_similarity
        (try_split_fuel t max_similarity) t with
    | none =>
      constructor
      · intro _
        refine Or.inr (Or.inr (fun u htr => ?_))
        exact try_split_none_all_single vectors items indices step
          max_similarity hstep t u htr _ (le_refl _) hsplit
      · intro children hchild
        rw [recursive_subcluster_aux, if_neg hbase, hsplit] at hchild
        exact absurd hchild (by simp)
    | some val =>
      obtain ⟨t', subs⟩ := val
      have hk : max_depth - depth = (max_depth - (depth + 1)) + 1 := by
        rcases not_or.mp hbase with ⟨_, h2⟩
        omega
      constructor
      · intro hleaf
        rw [recursive_subcluster_aux, if_neg hbase, hsplit, hk] at hleaf
        exact absurd hleaf (by simp)
      · intro children hchild
        rw [recursive_subcluster_aux, if_neg hbase, hsplit, hk] at hchild
        obtain ⟨htr, hsubs, hlen⟩ :=
          try_split_some_spec vectors items indices step max_similarity
            _ t t' subs hsplit
        refine ⟨t', subs, htr, hsubs, hlen, ?_⟩
        simp only [ClusterTree.node.injEq] at hchild
        simp only [recursive_subcluster]
        exact hchild.2.symm

/-- Vectors of the C7 counterexample and witness (one-dimensional, so all
pairwise squared distances are exact rationals): positions a=0, b=0.892,
c=−0.85 and a far-away z=10.  Seed-similarities: sim(a,b) ≈ 0.6022 lies
strictly between 0.6 and 0.603; sim(a,c) ≈ 0.639; every other pair is far
apart. -/
def c7vecs : List Vec := [[0], [892 / 1000], [-85 / 100], [10]]

/-- The cluster items fed to the subclusterer in the C7 example (the
subclusterer never reads their contents). -/
def c7items : List (ℕ × ℚ) := [(1, 1), (2, 1), (3, 1), (4, 1)]

/-- Number of children of the first child of a tree — the projection on
which the rounded and unrounded threshold schedules visibly differ. -/
def firstChildCount : ClusterTree → ℕ
  | .leaf _ => 0
  | .node _ cs =>
    match cs with
    | [] => 0
    | c :: _ =>
      match c with
      | .leaf _ => 0
      | .node _ cs2 => cs2.length

/-- C7 counterexample: starting at threshold 0.553 (step 0.05, cap 0.95,
`max_cluster_size` 2, depth 0, max depth 5) the root splits at 0.553 into
{a,b,c} and {z}.  The source recurses into {a,b,c} at
`round(0.553+0.05, 2) = 0.6` — where a–b are still neighbors, so the
split only happens at 0.65, into three singletons.  The claim's schedule
recurses at exactly 0.603 — where a–b already separate, splitting into
{a,c} and {b}.  The trees differ (3 grandchildren versus 2), so the
children are not recursed with starting threshold `t + similarityStep` as
claimed. -/
theorem recursive_subcluster_rounding_counterexample :
    recursive_subcluster c7vecs c7items [0, 1, 2, 3] (553 / 1000) 2
        (5 / 100) (95 / 100) 0 5 ≠
      recursive_subcluster_spec c7vecs c7items [0, 1, 2, 3] (553 / 1000) 2
        (5 / 100) (95 / 100) 0 5 := by
  intro h
  have h3 : firstChildCount (recursive_subcluster c7vecs c7items [0, 1, 2, 3]
      (553 / 1000) 2 (5 / 100) (95 / 100) 0 5) = 3 := by
    with_unfolding_all decide
  have h2 : firstChildCount (recursive_subcluster_spec c7vecs c7items
      [0, 1, 2, 3] (553 / 1000) 2 (5 / 100) (95 / 100) 0 5) = 2 := by
    with_unfolding_all decide
  rw [h, h2] at h3
  exact absurd h3 (by decide)

/-- Witness for C7's amended theorem at the concrete example. -/
theorem recursive_subcluster_structure_witness :
    (recursive_subcluster c7vecs c7items [0, 1, 2, 3] (553 / 1000) 2
        (5 / 100) (95 / 100) 0 5 = ClusterTree.leaf c7items →
      (c7items.length ≤ 2 ∨ (0 : ℕ) = 5 ∨
        ∀ u, Tried (5 / 100) (95 / 100) (553 / 1000) u →
          (split_cluster c7vecs c7items [0, 1, 2, 3] u).length ≤ 1)) ∧
    (∀ children,
      recursive_subcluster c7vecs c7items [0, 1, 2, 3] (553 / 1000) 2
          (5 / 100) (95 / 100) 0 5 = ClusterTree.node c7items children →
      ∃ t' subs, Tried (5 / 100) (95 / 100) (553 / 1000) t' ∧
        split_cluster c7vecs c7items [0, 1, 2, 3] t' = subs ∧
        1 < subs.length ∧
        children = subs.map (fun p =>
          recursive_subcluster c7vecs p.1 p.2 (round2 (t' + 5 / 100)) 2
            (5 / 100) (95 / 100) 1 5)) :=
  recursive_subcluster_structure c7vecs c7items [0, 1, 2, 3] (553 / 1000) 2
    (5 / 100) (95 / 100) 0 5 (by with_unfolding_all decide) (by decide)

/-! ### C1: UMAP emits only articles of top-20 clusters -/

theorem mem_zip_left_of_le {α β : Type} (a : α) :
    ∀ (l : List α) (l' : List β), a ∈ l → l.length ≤ l'.length →
      ∃ b, (a, b) ∈ l.zip l' := by
  intro l
  induction l with
  | nil =>
    intro l' h _
    exact absurd h (List.not_mem_nil a)
  | cons x l ih =>
    intro l' hmem hlen
    cases l' with
    | nil => simp at hlen
    | cons y l' =>
      rcases List.mem_cons.mp hmem with rfl | hmem'
      · exact ⟨y, List.mem_cons_self _ _⟩
      · obtain ⟨b, hb⟩ := ih l' hmem' (by simpa using hlen)
        exact ⟨b, List.mem_cons_of_mem _ hb⟩

theorem item_to_cluster_mem_top (clusters : List (ℕ × EnrichedCluster))
    (top : List ℕ) (item_id c : ℕ)
    (h : item_to_cluster clusters top item_id = some c) : c ∈ top := by
  rw [item_to_cluster] at h
  have hmem : c ∈ (clusters.filter
      (fun p => p.1 ∈ top ∧ item_id ∈ p.2.article_ids)).map (·.1) := by
    obtain ⟨hne, he⟩ := List.mem_getLast?_eq_getLast (Option.mem_def.mpr h)
    exact he ▸ List.getLast_mem hne
  obtain ⟨p, hp, rfl⟩ := List.mem_map.mp hmem
  have := List.mem_filter.mp hp
  simp only [decide_eq_true_eq] at this
  exact this.2.1

/-- The rows of C1's counterexample: two articles, both inside the
window, both carrying a (mutually orthogonal) embedding. -/
def c1rows : List NewsRow :=
  [{ id := 1, title := "t1", summary := none, url := "u1", source_url := "s",
     first_seen_at := 0, last_seen_at := 0, hit_count := 1,
     embedding := some [1, 0] },
   { id := 2, title := "t2", summary := none, url := "u2", source_url := "s",
     first_seen_at := 0, last_seen_at := 0, hit_count := 1,
     embedding := some [0, 1] }]

/-- C1 counterexample: the two orthogonal articles produce no cluster at
`min_similarity = 0.55`, so no cluster — let alone a top-20 one — exists,
and the UMAP generation over a window containing both embedded articles
emits the empty point list: the articles are NOT present with
`cluster_id = null`; they are omitted entirely (the source skips every
article not mapped to a top-20 cluster). -/
theorem generate_umap_omits_unclustered_counterexample :
    get_clusters ⟨[1, 2], [[1, 0], [0, 1]], none⟩ (55 / 100) = [] ∧
    (∃ r ∈ c1rows, (0 : ℤ) - 48 * 3600 ≤ r.last_seen_at ∧
      r.embedding = some [1, 0]) ∧
    generate_umap_visualization (fun l => l.map (fun _ => (0, 0))) 2 []
      c1rows [] 48 0 = [] := by
  with_unfolding_all decide

/-- C1 (amended): `generate_umap_visualization` ranks clusters by article
count and keeps the 20 largest — at most 20 ids are retained and no
discarded cluster is strictly larger than a retained one — and emits a
news point exactly for the in-window, shape-valid articles assigned to a
retained cluster, each carrying that (non-null) cluster id.  In-window
articles outside every top-20 cluster are omitted from the point list
entirely, not emitted with a null cluster id. -/
theorem generate_umap_top20_only (project : List Vec → List (ℚ × ℚ))
    (dimension : ℕ) (clusters : List (ℕ × EnrichedCluster))
    (rows : List NewsRow) (prefs : List PreferenceVec) (hours : ℕ) (now : ℤ)
    (hproj : ∀ l, (project l).length = l.length)
    (hkeys : (clusters.map Prod.fst).Nodup) :
    (∀ id title url src ls x y cid cname op,
      UMAPPoint.newsPoint id title url src ls x y cid cname op ∈
        generate_umap_visualization project dimension clusters rows prefs
          hours now →
      ∃ c, cid = some c ∧ c ∈ top_cluster_ids clusters) ∧
    (top_cluster_ids clusters).length ≤ 20 ∧
    (∀ p ∈ clusters, p.1 ∉ top_cluster_ids clusters →
      ∀ q ∈ clusters, q.1 ∈ top_cluster_ids clusters →
        p.2.article_ids.length ≤ q.2.article_ids.length) ∧
    (∀ r ∈ rows, ∀ e c, now - hours * 3600 ≤ r.last_seen_at →
      r.embedding = some e → e.length = dimension →
      item_to_cluster clusters (top_cluster_ids clusters) r.id = some c →
      ∃ x y, UMAPPoint.newsPoint r.id r.title r.url r.source_url
        r.last_seen_at x y (some c)
        ((clusters.find? (fun p => p.1 = c)).map (fun p => p.2.name))
        (umap_opacity now r.last_seen_at) ∈
          generate_umap_visualization project dimension clusters rows prefs
            hours now) := by
  refine ⟨?_, ?_, ?_, ?_⟩
  · intro id title url src ls x y cid cname op hp
    rw [generate_umap_visualization] at hp
    by_cases h1 : (rows.filter (fun r =>
        now - hours * 3600 ≤ r.last_seen_at ∧ r.embedding.isSome)).isEmpty
    · rw [if_pos h1] at hp
      exact absurd hp (List.not_mem_nil _)
    · rw [if_neg h1] at hp
      by_cases h2 : ((rows.filter (fun r =>
            now - hours * 3600 ≤ r.last_seen_at ∧ r.embedding.isSome)).filter
              (fun r => (item_to_cluster clusters (top_cluster_ids clusters)
                r.id).isSome &&
                (match r.embedding with
                 | some e => decide (e.length = dimension)
                 | none => false))).map (fun r => r.embedding.getD []) ++
          (prefs.filter (fun p =>
            match p.embedding with
            | some e => decide (e.length = dimension)
            | none => false)).map (fun p => p.embedding.getD []) = []
      · rw [if_pos (by rw [h2]; rfl)] at hp
        exact absurd hp (List.not_mem_nil _)
      · rw [if_neg (by
          intro hc
          exact h2 (List.isEmpty_iff.mp hc))] at hp
        rcases List.mem_append.mp hp with hmem | hmem
        · obtain ⟨q, hq, heq⟩ := List.mem_map.mp hmem
          rw [UMAPPoint.newsPoint.injEq] at heq
          have hsel := List.of_mem_zip hq
          have hcond := (List.mem_filter.mp hsel.1).2
          rw [Bool.and_eq_true] at hcond
          obtain ⟨c, hc⟩ := Option.isSome_iff_exists.mp hcond.1
          refine ⟨c, ?_, item_to_cluster_mem_top clusters _ _ c hc⟩
          rw [← heq.2.2.2.2.2.2.2.1, hc]
        · obtain ⟨q, _, heq⟩ := List.mem_map.mp hmem
          exact absurd heq (by simp)
  · rw [top_cluster_ids, List.length_map, List.length_take]
    exact min_le_left _ _
  · intro p hp hpnot q hq hqtop
    obtain ⟨q', hq', hq'e⟩ := List.mem_map.mp
      (show q.1 ∈ ((List.insertionSort umapRankRel clusters).take 20).map
        Prod.fst from hqtop)
    have hq'c : q' ∈ clusters :=
      (List.perm_insertionSort umapRankRel clusters).subset
        (List.mem_of_mem_take hq')
    have hq'q : q' = q := List.inj_on_of_nodup_map hkeys hq'c hq hq'e
    have hpsrt : p ∈ List.insertionSort umapRankRel clusters :=
      (List.mem_insertionSort umapRankRel).mpr hp
    rw [← List.take_append_drop 20
      (List.insertionSort umapRankRel clusters)] at hpsrt
    rcases List.mem_append.mp hpsrt with hptake | hpdrop
    · exact absurd (List.mem_map.mpr ⟨p, hptake, rfl⟩) hpnot
    · have hpair : List.Pairwise umapRankRel
          (List.insertionSort umapRankRel clusters) :=
        List.sorted_insertionSort _ _
      rw [← List.take_append_drop 20
        (List.insertionSort umapRankRel clusters)] at hpair
      have := (List.pairwise_append.mp hpair).2.2 q' hq' p hpdrop
      rw [hq'q] at this
      exact this
  · intro r hr e c hwin hemb helen hcid
    have hrnews : r ∈ rows.filter (fun x =>
        now - hours * 3600 ≤ x.last_seen_at ∧ x.embedding.isSome) := by
      refine List.mem_filter.mpr ⟨hr, ?_⟩
      simp [hwin, hemb]
    have hrsel : r ∈ (rows.filter (fun x =>
        now - hours * 3600 ≤ x.last_seen_at ∧ x.embedding.isSome)).filter
          (fun x => (item_to_cluster clusters (top_cluster_ids clusters)
            x.id).isSome &&
            (match x.embedding with
             | some e' => decide (e'.length = dimension)
             | none => false)) := by
      refine List.mem_filter.mpr ⟨hrnews, ?_⟩
      rw [hcid, hemb]
      simp [helen]
    rw [generate_umap_visualization,
      if_neg (by
        intro hc
        rw [List.isEmpty_iff] at hc
        rw [hc] at hrnews
        exact absurd hrnews (List.not_mem_nil r))]
    set news_sel := (rows.filter (fun x =>
        now - hours * 3600 ≤ x.last_seen_at ∧ x.embedding.isSome)).filter
          (fun x => (item_to_cluster clusters (top_cluster_ids clusters)
            x.id).isSome &&
            (match x.embedding with
             | some e' => decide (e'.length = dimension)
             | none => false)) with hns
    set pref_sel := prefs.filter (fun p =>
        match p.embedding with
        | some e' => decide (e'.length = dimension)
        | none => false) with hps
    rw [if_neg (by
      intro hc
      rw [List.isEmpty_iff] at hc
      have : r.embedding.getD [] ∈ news_sel.map (fun x => x.embedding.getD []) :=
        List.mem_map.mpr ⟨r, hrsel, rfl⟩
      rw [List.append_eq_nil.mp hc |>.1] at this
      exact absurd this (List.not_mem_nil _))]
    have hlensel : news_sel.length ≤
        (project (news_sel.map (fun x => x.embedding.getD []) ++
          pref_sel.map (fun p => p.embedding.getD []))).length := by
      rw [hproj, List.length_append, List.length_map]
      omega
    obtain ⟨b, hb⟩ := mem_zip_left_of_le r news_sel
      ((project (news_sel.map (fun x => x.embedding.getD []) ++
        pref_sel.map (fun p => p.embedding.getD []))).take news_sel.length)
      hrsel (by
        rw [List.length_take]
        omega)
    refine ⟨b.1, b.2, List.mem_append.mpr (Or.inl (List.mem_map.mpr
      ⟨(r, b), hb, ?_⟩))⟩
    rw [hcid]
    rfl

/-- The single cluster of C1's witness. -/
def c1cluster : List (ℕ × EnrichedCluster) :=
  [(0, { name := "politics", article_ids := [1] })]

/-- The single article of C1's witness, member of cluster 0. -/
def c1row : NewsRow :=
  { id := 1, title := "t1", summary := none, url := "u1", source_url := "s",
    first_seen_at := 0, last_seen_at := 0, hit_count := 1,
    embedding := some [1, 0] }

/-- Witness for C1's amended theorem: one cluster, one member article —
at most 20 ids are retained and the article is emitted with its cluster
id. -/
theorem generate_umap_top20_only_witness :
    (top_cluster_ids c1cluster).length ≤ 20 ∧
    ∃ x y, UMAPPoint.newsPoint c1row.id c1row.title c1row.url
        c1row.source_url c1row.last_seen_at x y (some 0)
        ((c1cluster.find? (fun p => p.1 = 0)).map (fun p => p.2.name))
        (umap_opacity 0 c1row.last_seen_at) ∈
      generate_umap_visualization (fun l => l.map (fun _ => (0, 0))) 2
        c1cluster [c1row] [] 48 0 :=
  ⟨(generate_umap_top20_only (fun l => l.map (fun _ => (0, 0))) 2 c1cluster
      [c1row] [] 48 0 (fun l => by simp) (by decide)).2.1,
   (generate_umap_top20_only (fun l => l.map (fun _ => (0, 0))) 2 c1cluster
      [c1row] [] 48 0 (fun l => by simp) (by decide)).2.2.2 c1row
      (by decide) [1, 0] 0 (by decide) (by decide) (by decide)
      (by with_unfolding_all decide)⟩

end Embird
